import Mathlib

/-!
Verification of the pbspark protobuf-to-Spark conversion core (pbspark/_proto.py).

The development shallowly embeds the data model and the operations of the
repository:

* Spark SQL data types (the subset constructed by the code) as `SparkType`;
* protobuf descriptors (`Descriptor`, `FieldDescriptor`, `FieldKind`) with the
  attributes the code reads: `cpp_type`, `type` (to distinguish byte fields),
  `label == LABEL_REPEATED`, `message_type`, `camelcase_name`, options with the
  deprecated flag, and the enum value table;
* the converter state (`MessageConverter`) with its three registries and the
  register/unregister operations;
* `get_spark_schema`, including its seen-set threading and the circular
  definition check, with Python exceptions modelled as `Except` errors
  (`attributeError` models the `AttributeError` raised by evaluating
  `field.message_type.full_name` when `message_type` is `None`);
* the overridden json_format printer (`message_to_dict`) and parser
  (`parse_dict`), together with the fragment of the external
  `google.protobuf.json_format` collaborator the overrides build on.  The
  fragment covers regular messages with int32/int64/uint32/uint64/bool/enum/
  string/bytes/message fields, singular or repeated.  Floating point fields,
  map fields, oneofs, `Struct`/`Value`/`Any` and the remaining well-known
  types are outside the modelled fragment; where the real library would take
  such a branch the model returns a distinguished `unmodeled` error so that no
  theorem can silently rely on those branches.
* the runtime monkey patching of `json_format._ConvertScalarFieldValue` is
  modelled by threading an explicit module state (`JsonFormatModule`) holding
  the current scalar conversion function through the parser, exactly mirroring
  the save / patch / run / finally-restore shape of the context manager.

Python `bytes` versus `bytearray` values are modelled as `jbytes data m` where
`m` records mutability; message fields always hold immutable bytes.

The module `pbspark._timestamp` is not part of the sources; the two functions
`_to_datetime` / `_from_datetime` that the default converter registers for
`google.protobuf.Timestamp` are modelled from the spec (see the definitions
marked `Modelled from the spec`).
-/

set_option maxHeartbeats 4000000
set_option maxRecDepth 100000

namespace Pbspark

/-! ## Spark SQL types (pyspark.sql.types fragment used by the code) -/

mutual
inductive SparkType where
  | integerType
  | longType
  | doubleType
  | floatType
  | booleanType
  | stringType
  | binaryType
  | timestampType
  | arrayType (elementType : SparkType) (containsNull : Bool)
  | structType (fields : SparkFields)
inductive SparkFields where
  | fnil
  | fcons (name : String) (dataType : SparkType) (nullable : Bool) (rest : SparkFields)
end

deriving instance DecidableEq for SparkType
deriving instance Repr for SparkType

/-- Build a SparkFields list from a plain list, mirroring
`StructType([StructField(*entry) for entry in schema])`. -/
def sparkFieldsOfList : List (String × SparkType × Bool) → SparkFields
  | [] => .fnil
  | (n, t, b) :: rest => .fcons n t b (sparkFieldsOfList rest)

/-! ## Protobuf descriptor model -/

/-- The `cpp_type` attribute of a field descriptor. -/
inductive CppType where
  | cppInt32
  | cppInt64
  | cppUint32
  | cppUint64
  | cppDouble
  | cppFloat
  | cppBool
  | cppEnum
  | cppString
  | cppMessage
deriving DecidableEq, Repr

/-- The kind of a protobuf field as the model tracks it.  `bytesK` is the
field with `cpp_type == CPPTYPE_STRING` and `type == TYPE_BYTES`; `enumK`
carries the enum value table (`enum_type.values`, name and number pairs);
`messageK` carries `message_type.full_name`.  Floating point kinds are not
modelled (no `FieldKind` maps to `CPPTYPE_DOUBLE`/`CPPTYPE_FLOAT`). -/
inductive FieldKind where
  | int32K
  | int64K
  | uint32K
  | uint64K
  | boolK
  | enumK (values : List (String × Int))
  | stringK
  | bytesK
  | messageK (typeName : String)
deriving DecidableEq, Repr

/-- The `cpp_type` attribute derived from the kind. -/
def FieldKind.cppType : FieldKind → CppType
  | .int32K => .cppInt32
  | .int64K => .cppInt64
  | .uint32K => .cppUint32
  | .uint64K => .cppUint64
  | .boolK => .cppBool
  | .enumK _ => .cppEnum
  | .stringK => .cppString
  | .bytesK => .cppString
  | .messageK _ => .cppMessage

/-- Whether `field.type == FieldDescriptor.TYPE_BYTES`. -/
def FieldKind.isTypeBytes : FieldKind → Bool
  | .bytesK => true
  | _ => false

/-- The value of `field.message_type.full_name` would-be access:
`message_type` is `None` (here `none`) exactly for non message fields. -/
def FieldKind.messageTypeName : FieldKind → Option String
  | .messageK n => some n
  | _ => none

/-- One protobuf field descriptor with the attributes the code reads. -/
structure FieldDescriptor where
  name : String
  camelcaseName : String
  number : Nat
  kind : FieldKind
  isRepeated : Bool
  hasOptions : Bool
  deprecated : Bool
deriving DecidableEq, Repr

/-- A message descriptor: full name plus ordered field list. -/
structure Descriptor where
  fullName : String
  fields : List FieldDescriptor
deriving DecidableEq, Repr

/-- The descriptor pool: every message type reachable in a scenario. -/
def poolFind : List Descriptor → String → Option Descriptor
  | [], _ => none
  | d :: rest, n => if d.fullName = n then some d else poolFind rest n

/-! ## Python dict helpers (insertion ordered association lists) -/

/-- Lookup in a Python dict modelled as an association list. -/
def dictGet {α : Type} : List (String × α) → String → Option α
  | [], _ => none
  | (k, v) :: rest, key => if k = key then some v else dictGet rest key

/-- Dict assignment `d[k] = v`: replace in place or append. -/
def dictSet {α : Type} : List (String × α) → String → α → List (String × α)
  | [], key, v => [(key, v)]
  | (k, w) :: rest, key, v =>
    if k = key then (k, v) :: rest else (k, w) :: dictSet rest key v

/-- Dict removal `d.pop(k, None)`. -/
def dictPop {α : Type} : List (String × α) → String → List (String × α)
  | [], _ => []
  | (k, w) :: rest, key => if k = key then rest else (k, w) :: dictPop rest key

/-- Membership `k in d`. -/
def dictContains {α : Type} (d : List (String × α)) (key : String) : Bool :=
  (dictGet d key).isSome

/-! ## The static type tables of pbspark._proto -/

def timestampFullName : String := "google.protobuf.Timestamp"

/-- The `_MESSAGETYPE_TO_SPARK_TYPE_MAP` table (lines 40-55 of _proto.py). -/
def messagetypeToSparkTypeMap : List (String × SparkType) :=
  [(timestampFullName, .stringType),
   ("google.protobuf.Duration", .stringType),
   ("google.protobuf.DoubleValue", .doubleType),
   ("google.protobuf.FloatValue", .floatType),
   ("google.protobuf.Int64Value", .longType),
   ("google.protobuf.UInt64Value", .longType),
   ("google.protobuf.Int32Value", .integerType),
   ("google.protobuf.UInt32Value", .longType),
   ("google.protobuf.BoolValue", .booleanType),
   ("google.protobuf.StringValue", .stringType),
   ("google.protobuf.BytesValue", .binaryType)]

/-- The `_CPPTYPE_TO_SPARK_TYPE_MAP` table (lines 62-72).  It has no entry for
`CPPTYPE_MESSAGE`; indexing with a missing key is a Python `KeyError`, hence
the `Option`. -/
def cpptypeToSparkTypeMap : CppType → Option SparkType
  | .cppInt32 => some .integerType
  | .cppInt64 => some .longType
  | .cppUint32 => some .longType
  | .cppUint64 => some .longType
  | .cppDouble => some .doubleType
  | .cppFloat => some .floatType
  | .cppBool => some .booleanType
  | .cppEnum => some .stringType
  | .cppString => some .stringType
  | .cppMessage => none

/-! ## JSON-ish values: what message_to_dict produces and parse_dict consumes

Python values flowing between the printer and the parser: ints, strings,
bools, byte strings (with a mutability flag: `jbytes data true` is a
`bytearray`, `jbytes data false` a `bytes`), lists, dicts (insertion
ordered), `None`, and the native datetime value produced by the default
timestamp serializer (`jtemporal`). -/

mutual
inductive JValue where
  | jnull
  | jint (i : Int)
  | jstr (s : String)
  | jbool (b : Bool)
  | jbytes (data : List Nat) (isBytearray : Bool)
  | jtemporal (seconds : Int) (nanos : Int)
  | jarr (items : JArr)
  | jobj (entries : JObj)
inductive JArr where
  | anil
  | acons (v : JValue) (rest : JArr)
inductive JObj where
  | onil
  | ocons (key : String) (v : JValue) (rest : JObj)
end

deriving instance DecidableEq for JValue, JArr, JObj
deriving instance Repr for JValue, JArr, JObj

/-- Keys of a JObj, in order. -/
def JObj.keys : JObj → List String
  | .onil => []
  | .ocons k _ rest => k :: JObj.keys rest

/-- Membership test `name in js` on the dict being built by the printer. -/
def JObj.hasKey (o : JObj) (key : String) : Bool :=
  key ∈ o.keys

/-- Append two JObj entry lists (printer appends default entries at the end). -/
def JObj.append : JObj → JObj → JObj
  | .onil, o => o
  | .ocons k v rest, o => .ocons k v (JObj.append rest o)

/-! ## Message instances

A populated protobuf message: its type full name plus the populated fields in
`ListFields()` order (ascending field number), each paired with the field
descriptor.  Scalar fields without presence are populated exactly when their
value differs from the default, repeated fields when nonempty, message fields
whenever set (possibly empty); the well-formedness predicate below enforces
this canonical shape. -/

mutual
inductive PValue where
  | pint (i : Int)
  | pstr (s : String)
  | pbytes (data : List Nat)
  | pbool (b : Bool)
  | penum (n : Int)
  | pmsg (m : PMessage)
inductive PMessage where
  | mk (typeName : String) (fields : PFields)
inductive PFields where
  | pnil
  | pcons (fd : FieldDescriptor) (payload : PPayload) (rest : PFields)
inductive PPayload where
  | single (v : PValue)
  | repeated (vs : PList)
inductive PList where
  | lnil
  | lcons (v : PValue) (rest : PList)
end

deriving instance DecidableEq for PValue, PMessage, PFields, PPayload, PList
deriving instance Repr for PValue, PMessage, PFields, PPayload, PList

def PMessage.typeName : PMessage → String
  | .mk t _ => t

def PMessage.fields : PMessage → PFields
  | .mk _ fs => fs

/-! ## Error values

`PErr` models the exceptions a decode can raise, `SErr` those of an encode.
The `unmodeled` constructors are artifacts of the embedding: they mark
branches of the external json_format collaborator that the model does not
cover (floating point, base64, well-known-type JSON methods, maps/oneofs); no
confirmed theorem rests on such a branch. -/

inductive PErr where
  | messageTooDeep
  | unknownField (name : String)
  | duplicateField (name : String)
  | badValue
  | unmodeled
deriving DecidableEq, Repr

inductive SErr where
  | unmodeledWkt
  | unmodeledBase64
  | unmodeledValue
  | descriptorMissing
deriving DecidableEq, Repr

instance {e a : Type} [DecidableEq e] [DecidableEq a] : DecidableEq (Except e a) := fun x y =>
  match x, y with
  | .ok u, .ok v =>
    if h : u = v then .isTrue (by rw [h]) else .isFalse (by intro hh; cases hh; exact h rfl)
  | .error u, .error v =>
    if h : u = v then .isTrue (by rw [h]) else .isFalse (by intro hh; cases hh; exact h rfl)
  | .ok _, .error _ => .isFalse (by intro hh; cases hh)
  | .error _, .ok _ => .isFalse (by intro hh; cases hh)

/-! ## The scalar conversion function of json_format and its patch

`json_format._ConvertScalarFieldValue` is a module level function of the
external protobuf runtime.  pbspark temporarily replaces it by
`_handle_bytes(_ConvertScalarFieldValue)` while a conversion runs.  The
module attribute is modelled as the state `JsonFormatModule`. -/

/-- Fragment of `json_format._ConvertInteger`: bools are rejected, ints are
accepted, numeric strings are accepted via `int(value)`. -/
def convertInteger : JValue → Except PErr PValue
  | .jbool _ => .error .badValue
  | .jint i => .ok (.pint i)
  | .jstr s =>
    match s.toInt? with
    | some i => .ok (.pint i)
    | none => .error .badValue
  | _ => .error .badValue

/-- Fragment of `json_format._ConvertBool`. -/
def convertBool : JValue → Except PErr PValue
  | .jbool b => .ok (.pbool b)
  | _ => .error .badValue

/-- Lookup `enum_type.values_by_name.get(name)`. -/
def lookupEnumByName : List (String × Int) → String → Option Int
  | [], _ => none
  | (nm, num) :: rest, key => if nm = key then some num else lookupEnumByName rest key

/-- Lookup `enum_type.values_by_number.get(number)`. -/
def lookupEnumByNumber : List (String × Int) → Int → Option (String × Int)
  | [], _ => none
  | (nm, num) :: rest, key => if num = key then some (nm, num) else lookupEnumByNumber rest key

/-- Enum branch of `_ConvertScalarFieldValue`: try `values_by_name`, then
`int(value)` with a `values_by_number` lookup, falling back to the bare
number for proto3 open enums. -/
def convertEnumValue (values : List (String × Int)) : JValue → Except PErr PValue
  | .jstr s =>
    match lookupEnumByName values s with
    | some num => .ok (.penum num)
    | none =>
      match s.toInt? with
      | some n =>
        match lookupEnumByNumber values n with
        | some e => .ok (.penum e.2)
        | none => .ok (.penum n)
      | none => .error .badValue
  | .jint n =>
    match lookupEnumByNumber values n with
    | some e => .ok (.penum e.2)
    | none => .ok (.penum n)
  | _ => .error .badValue

/-- The modelled fragment of the module level
`json_format._ConvertScalarFieldValue` (the unpatched original).  The
byte-field branch performs a base64 decode in the library; it is not modelled
because pbspark always runs the parser with the patch installed, which
intercepts byte fields first. -/
def baseConvertScalarFieldValue (value : JValue) (field : FieldDescriptor) : Except PErr PValue :=
  match field.kind.cppType with
  | .cppInt32 => convertInteger value
  | .cppInt64 => convertInteger value
  | .cppUint32 => convertInteger value
  | .cppUint64 => convertInteger value
  | .cppDouble => .error .unmodeled
  | .cppFloat => .error .unmodeled
  | .cppBool => convertBool value
  | .cppString =>
    if field.kind.isTypeBytes then .error .unmodeled
    else
      match value with
      | .jstr s => .ok (.pstr s)
      | _ => .error .badValue
  | .cppEnum =>
    match field.kind with
    | .enumK values => convertEnumValue values value
    | _ => .error .unmodeled
  | .cppMessage => .error .unmodeled

/-- The `_handle_bytes` decorator (lines 120-130): before delegating to the
wrapped function, byte fields convert the raw byte sequence with
`bytes(value)` — a `bytearray` becomes immutable `bytes`, `bytes` stay as
they are. -/
def handle_bytes (func : JValue → FieldDescriptor → Except PErr PValue) :
    JValue → FieldDescriptor → Except PErr PValue :=
  fun value field =>
    if field.kind.cppType = CppType.cppString && field.kind.isTypeBytes then
      match value with
      | .jbytes data _ => .ok (.pbytes data)
      | _ => .error .badValue
    else func value field

/-- The mutable module state of `google.protobuf.json_format`: the current
value of its `_ConvertScalarFieldValue` attribute. -/
structure JsonFormatModule where
  convertScalarFieldValue : JValue → FieldDescriptor → Except PErr PValue

/-- The module state before any patching. -/
def jsonFormatModuleStart : JsonFormatModule :=
  { convertScalarFieldValue := baseConvertScalarFieldValue }

/-! ## The default timestamp serializer and deserializer

`pbspark._timestamp` is not among the sources of the repository; only its
two functions are imported by `_proto.py`. -/

def secondsFieldName : String := "seconds"
def nanosFieldName : String := "nanos"

/-- The field descriptor of `Timestamp.seconds`. -/
def tsSecondsField : FieldDescriptor :=
  { name := secondsFieldName, camelcaseName := secondsFieldName, number := 1,
    kind := .int64K, isRepeated := false, hasOptions := false, deprecated := false }

/-- The field descriptor of `Timestamp.nanos`. -/
def tsNanosField : FieldDescriptor :=
  { name := nanosFieldName, camelcaseName := nanosFieldName, number := 2,
    kind := .int32K, isRepeated := false, hasOptions := false, deprecated := false }

/-- The descriptor of `google.protobuf.Timestamp`. -/
def timestampDescriptor : Descriptor :=
  { fullName := timestampFullName, fields := [tsSecondsField, tsNanosField] }

/-- Payload of the field with the given name among the populated fields. -/
def PFields.getByName : PFields → String → Option PPayload
  | .pnil, _ => none
  | .pcons fd p rest, key => if fd.name = key then some p else PFields.getByName rest key

/-- The `seconds` value of a timestamp message (0 when not populated). -/
def timestampSeconds (m : PMessage) : Int :=
  match m.fields.getByName secondsFieldName with
  | some (.single (.pint i)) => i
  | _ => 0

/-- The `nanos` value of a timestamp message (0 when not populated). -/
def timestampNanos (m : PMessage) : Int :=
  match m.fields.getByName nanosFieldName with
  | some (.single (.pint i)) => i
  | _ => 0

/-- The canonical populated-field list of a timestamp with the given seconds
and nanos: zero components are absent, fields in number order. -/
def mkTimestampFields (s n : Int) : PFields :=
  if s = 0 then
    (if n = 0 then .pnil else .pcons tsNanosField (.single (.pint n)) .pnil)
  else
    .pcons tsSecondsField (.single (.pint s))
      (if n = 0 then .pnil else .pcons tsNanosField (.single (.pint n)) .pnil)

/-- A timestamp message in canonical form. -/
def mkTimestampMessage (s n : Int) : PMessage :=
  .mk timestampFullName (mkTimestampFields s n)

/-- Modelled from the spec: `pbspark._timestamp._to_datetime` is not under
src/.  Per the spec (section 4.3) it turns the well-known timestamp message
into a native date-time value (a temporal scalar); its deserializer
counterpart `_from_datetime` does the inverse. -/
def to_datetime (m : PMessage) : JValue :=
  .jtemporal (timestampSeconds m) (timestampNanos m)

/-- Modelled from the spec: `pbspark._timestamp._from_datetime` is not under
src/.  Per the spec it is the inverse of `_to_datetime`: it repopulates the
target timestamp message from the native date-time value. -/
def from_datetime : JValue → Except PErr PMessage
  | .jtemporal s n => .ok (mkTimestampMessage s n)
  | _ => .error .badValue

/-! ## MessageConverter state and registry operations -/

/-- An encode-direction custom serializer (a Python callable taking the
message instance). -/
def SerFn : Type := PMessage → JValue

/-- A decode-direction custom deserializer: it receives the raw value and
must populate the target message; the model returns the populated message. -/
def DeserFn : Type := JValue → Except PErr PMessage

/-- The mutable state of a `MessageConverter` instance (lines 150-155):
two custom-function registries plus the instance copy of the message-type
schema map. -/
structure MessageConverter where
  customSerializers : List (String × SerFn)
  customDeserializers : List (String × DeserFn)
  messageTypeToSparkTypeMap : List (String × SparkType)

/-- `register_serializer` (lines 157-170).  The source receives the message
class and reads `message.DESCRIPTOR.full_name`; the model receives the full
name directly. -/
def register_serializer (mc : MessageConverter) (fullName : String)
    (serializer : SerFn) (returnType : SparkType) : MessageConverter :=
  { mc with
    customSerializers := dictSet mc.customSerializers fullName serializer,
    messageTypeToSparkTypeMap := dictSet mc.messageTypeToSparkTypeMap fullName returnType }

/-- `unregister_serializer` (lines 172-179): drop both entries, then restore
the built-in well-known-type entry when one exists. -/
def unregister_serializer (mc : MessageConverter) (fullName : String) : MessageConverter :=
  let mc1 :=
    { mc with
      customSerializers := dictPop mc.customSerializers fullName,
      messageTypeToSparkTypeMap := dictPop mc.messageTypeToSparkTypeMap fullName }
  match dictGet messagetypeToSparkTypeMap fullName with
  | some builtin =>
    { mc1 with
      messageTypeToSparkTypeMap := dictSet mc1.messageTypeToSparkTypeMap fullName builtin }
  | none => mc1

/-- `register_deserializer` (lines 181-183). -/
def register_deserializer (mc : MessageConverter) (fullName : String)
    (deserializer : DeserFn) : MessageConverter :=
  { mc with customDeserializers := dictSet mc.customDeserializers fullName deserializer }

/-- `unregister_deserializer` (lines 185-187). -/
def unregister_deserializer (mc : MessageConverter) (fullName : String) : MessageConverter :=
  { mc with customDeserializers := dictPop mc.customDeserializers fullName }

/-- `register_timestamp_serializer` (lines 190-191). -/
def register_timestamp_serializer (mc : MessageConverter) : MessageConverter :=
  register_serializer mc timestampFullName to_datetime .timestampType

/-- `unregister_timestamp_serializer` (lines 193-194). -/
def unregister_timestamp_serializer (mc : MessageConverter) : MessageConverter :=
  unregister_serializer mc timestampFullName

/-- `register_timestamp_deserializer` (lines 196-197). -/
def register_timestamp_deserializer (mc : MessageConverter) : MessageConverter :=
  register_deserializer mc timestampFullName from_datetime

/-- `unregister_timestamp_deserializer` (lines 199-200). -/
def unregister_timestamp_deserializer (mc : MessageConverter) : MessageConverter :=
  unregister_deserializer mc timestampFullName

/-- `MessageConverter.__init__` (lines 150-155): empty registries, a copy of
the built-in table, then the default timestamp overrides. -/
def mkMessageConverter : MessageConverter :=
  register_timestamp_deserializer
    (register_timestamp_serializer
      { customSerializers := [],
        customDeserializers := [],
        messageTypeToSparkTypeMap := messagetypeToSparkTypeMap })

/-- A registry operation issued by a caller on a converter instance. -/
inductive ConvOp where
  | regSerializer (fullName : String) (fn : SerFn) (returnType : SparkType)
  | unregSerializer (fullName : String)
  | regDeserializer (fullName : String) (fn : DeserFn)
  | unregDeserializer (fullName : String)
  | regTimestampSerializer
  | unregTimestampSerializer
  | regTimestampDeserializer
  | unregTimestampDeserializer

/-- Apply one registry operation. -/
def applyConvOp (mc : MessageConverter) : ConvOp → MessageConverter
  | .regSerializer n fn t => register_serializer mc n fn t
  | .unregSerializer n => unregister_serializer mc n
  | .regDeserializer n fn => register_deserializer mc n fn
  | .unregDeserializer n => unregister_deserializer mc n
  | .regTimestampSerializer => register_timestamp_serializer mc
  | .unregTimestampSerializer => unregister_timestamp_serializer mc
  | .regTimestampDeserializer => register_timestamp_deserializer mc
  | .unregTimestampDeserializer => unregister_timestamp_deserializer mc

/-- Apply a sequence of registry operations. -/
def applyConvOps (mc : MessageConverter) : List ConvOp → MessageConverter
  | [] => mc
  | op :: rest => applyConvOps (applyConvOp mc op) rest

/-! ## Schema derivation: MessageConverter.get_spark_schema (lines 241-309)

`_seen_descriptors` threading: the callee copies the incoming set and adds
its own full name before processing fields (lines 252-265).  Python
exceptions become `Except` errors:

* `attributeError` — line 272 evaluates `field.message_type.full_name` for
  every field; for a non message field `message_type` is `None`;
* `valueErrorCircular` — the `raise ValueError` of the circular check;
* `keyError` — `_CPPTYPE_TO_SPARK_TYPE_MAP[field.cpp_type]` with a missing
  key;
* `poolMissing` — an artifact of the embedding: the recursive call receives
  `field.message_type` directly in Python, the model looks the descriptor up
  in the pool;
* `outOfFuel` — an artifact: recursion is paid for by explicit fuel.  Real
  executions always terminate (the seen set bounds the recursion depth); any
  fuel of at least the number of distinct message types suffices. -/

inductive SchemaErr where
  | attributeError
  | valueErrorCircular (name : String)
  | keyError
  | poolMissing (name : String)
  | outOfFuel
deriving DecidableEq, Repr

/-- The recognised schema options (lines 255-258). -/
structure SchemaOptions where
  preservingProtoFieldName : Bool := false
  ignoreDeprecated : Bool := false
  ignoreCircularDefinitions : Bool := false
deriving DecidableEq, Repr

/-- Generic loop skeleton for the `for field in descriptor_.fields` loop:
process entries left to right; an error aborts the whole loop, a `none`
result skips the entry (`continue`), results keep their order. -/
def fieldsLoop {E A B : Type} (f : A → Except E (Option B)) : List A → Except E (List B)
  | [] => .ok []
  | x :: rest =>
    match f x with
    | .error e => .error e
    | .ok none => fieldsLoop f rest
    | .ok (some b) =>
      match fieldsLoop f rest with
      | .ok l => .ok (b :: l)
      | .error e => .error e

/-- Process one field of the loop body (lines 271-307).  `recurse` performs
the recursive `self.get_spark_schema(field.message_type, options,
_seen_descriptors_)` call. -/
def schemaFieldEntry (mc : MessageConverter) (pool : List Descriptor)
    (options : SchemaOptions) (seen' : List String)
    (recurse : Descriptor → Except SchemaErr SparkType)
    (field : FieldDescriptor) : Except SchemaErr (Option (String × SparkType × Bool)) :=
  -- line 272: field_full_name = field.message_type.full_name
  match field.kind.messageTypeName with
  | none => .error .attributeError
  | some fieldFullName =>
    -- lines 273-278: optionally skip deprecated fields
    if field.hasOptions && field.deprecated && options.ignoreDeprecated then .ok none
    else
    -- lines 280-287: circular definition check (message_type is not None here)
    if fieldFullName ∈ seen' then
      if options.ignoreCircularDefinitions then
        -- logging.warning(...); continue
        .ok none
      else .error (.valueErrorCircular fieldFullName)
    else
      -- lines 289-303: resolve the spark type of the field
      let sparkTypeE : Except SchemaErr SparkType :=
        if field.kind.cppType = CppType.cppMessage then
          match dictGet mc.messageTypeToSparkTypeMap fieldFullName with
          | some t => .ok t
          | none =>
            match poolFind pool fieldFullName with
            | some sub => recurse sub
            | none => .error (.poolMissing fieldFullName)
        else if field.kind.cppType = CppType.cppString && field.kind.isTypeBytes then
          .ok .binaryType
        else
          match cpptypeToSparkTypeMap field.kind.cppType with
          | some t => .ok t
          | none => .error .keyError
      match sparkTypeE with
      | .error e => .error e
      | .ok t0 =>
        -- lines 304-307: repeated wrapping and field naming
        let t1 := if field.isRepeated then SparkType.arrayType t0 true else t0
        let fieldName :=
          if options.preservingProtoFieldName then field.name else field.camelcaseName
        .ok (some (fieldName, t1, true))

/-- `get_spark_schema` on a descriptor with an explicit seen set
(lines 241-309).  The seen set threading is copy-on-recurse: the callee
copies the incoming set and adds its own full name (lines 252-265). -/
def getSparkSchemaAux (mc : MessageConverter) (pool : List Descriptor)
    (options : SchemaOptions) : Nat → Descriptor → List String →
    Except SchemaErr SparkType
  | 0, _, _ => .error .outOfFuel
  | fuel + 1, descr, seen =>
    -- line 253: _seen_descriptors_ = copy(_seen_descriptors) or set()
    -- line 265: _seen_descriptors_.add(descriptor_.full_name)
    let seen' := if descr.fullName ∈ seen then seen else descr.fullName :: seen
    -- lines 267-269: early return for names in the schema map
    match dictGet mc.messageTypeToSparkTypeMap descr.fullName with
    | some t => .ok t
    | none =>
      -- lines 271-309: the field loop, then StructType(struct_args)
      match fieldsLoop
          (schemaFieldEntry mc pool options seen'
            (fun sub => getSparkSchemaAux mc pool options fuel sub seen'))
          descr.fields with
      | .ok entries => .ok (.structType (sparkFieldsOfList entries))
      | .error e => .error e

/-- `get_spark_schema` as called by users: no seen set yet. -/
def get_spark_schema (mc : MessageConverter) (pool : List Descriptor)
    (options : SchemaOptions) (fuel : Nat) (descr : Descriptor) :
    Except SchemaErr SparkType :=
  getSparkSchemaAux mc pool options fuel descr []

/-! ## Encode direction: message_to_dict (lines 204-222) over the overridden
printer (lines 76-99) -/

/-- The printer options accepted by `message_to_dict` (float_precision and
descriptor_pool are outside the modelled fragment). -/
structure PrintOptions where
  includingDefaultValueFields : Bool := false
  preservingProtoFieldName : Bool := false
  useIntegersForEnums : Bool := false
deriving DecidableEq, Repr

/-- Message full names with dedicated JSON handling in the base printer and
parser (`_WKTJSONMETHODS` plus the wrapper messages).  Reaching one of them
without a custom serializer/deserializer leaves the modelled fragment. -/
def wellKnownJsonNames : List String :=
  ["google.protobuf.Any", "google.protobuf.Duration", "google.protobuf.FieldMask",
   "google.protobuf.ListValue", "google.protobuf.Struct", timestampFullName,
   "google.protobuf.Value",
   "google.protobuf.DoubleValue", "google.protobuf.FloatValue",
   "google.protobuf.Int64Value", "google.protobuf.UInt64Value",
   "google.protobuf.Int32Value", "google.protobuf.UInt32Value",
   "google.protobuf.BoolValue", "google.protobuf.StringValue",
   "google.protobuf.BytesValue"]

/-- The `field.default_value` attribute of a non message field;
`none` for singular message fields (which the defaults loop skips). -/
def fieldDefaultValue : FieldKind → Option PValue
  | .int32K => some (.pint 0)
  | .int64K => some (.pint 0)
  | .uint32K => some (.pint 0)
  | .uint64K => some (.pint 0)
  | .boolK => some (.pbool false)
  | .enumK _ => some (.penum 0)
  | .stringK => some (.pstr ("" : String))
  | .bytesK => some (.pbytes [])
  | .messageK _ => none

/-- The non message branches of `_Printer._FieldToJsonObject`: first the two
overriding branches of lines 89-99 (byte fields pass through unchanged,
64 bit integers stay native integers), then the base class branches of
`json_format._Printer._FieldToJsonObject`.  The base byte branch (base64)
and the base 64 bit branch (`str(value)`) are kept but are unreachable
through the override. -/
def scalarFieldToJsonObject (options : PrintOptions) (field : FieldDescriptor)
    (v : PValue) : Except SErr JValue :=
  -- lines 91-95: bytes before protobuf's method
  if field.kind.cppType = CppType.cppString && field.kind.isTypeBytes then
    match v with
    | .pbytes data => .ok (.jbytes data false)
    | _ => .error .unmodeledValue
  -- lines 96-98: int64s are not converted to strings
  else if field.kind.cppType = CppType.cppInt64 || field.kind.cppType = CppType.cppUint64 then
    match v with
    | .pint i => .ok (.jint i)
    | _ => .error .unmodeledValue
  else
    match field.kind.cppType with
    | .cppEnum =>
      if options.useIntegersForEnums then
        match v with
        | .penum n => .ok (.jint n)
        | _ => .error .unmodeledValue
      else
        match field.kind, v with
        | .enumK values, .penum n =>
          match lookupEnumByNumber values n with
          | some e => .ok (.jstr e.1)
          | none => .ok (.jint n)
        | _, _ => .error .unmodeledValue
    | .cppString =>
      if field.kind.isTypeBytes then .error .unmodeledBase64
      else
        match v with
        | .pstr s => .ok (.jstr s)
        | _ => .error .unmodeledValue
    | .cppBool =>
      match v with
      | .pbool b => .ok (.jbool b)
      | _ => .error .unmodeledValue
    | .cppInt32 =>
      match v with
      | .pint i => .ok (.jint i)
      | _ => .error .unmodeledValue
    | .cppUint32 =>
      match v with
      | .pint i => .ok (.jint i)
      | _ => .error .unmodeledValue
    | .cppInt64 =>
      match v with
      | .pint i => .ok (.jstr (toString i))
      | _ => .error .unmodeledValue
    | .cppUint64 =>
      match v with
      | .pint i => .ok (.jstr (toString i))
      | _ => .error .unmodeledValue
    | .cppDouble => .error .unmodeledValue
    | .cppFloat => .error .unmodeledValue
    | .cppMessage => .error .unmodeledValue

/-- The `including_default_value_fields` tail of
`_RegularMessageToJsonObject`: walk the descriptor fields, skip singular
message fields and names already serialized, append `[]` for repeated
fields and the converted default for scalar fields.  The growing object is
threaded so that the membership check sees earlier defaults, as the real
dict does. -/
def printDefaultEntries (options : PrintOptions) : JObj → List FieldDescriptor →
    Except SErr JObj
  | js, [] => .ok js
  | js, fd :: rest =>
    if !fd.isRepeated && fd.kind.cppType = CppType.cppMessage then
      printDefaultEntries options js rest
    else
      let name := if options.preservingProtoFieldName then fd.name else fd.camelcaseName
      if js.hasKey name then printDefaultEntries options js rest
      else if fd.isRepeated then
        printDefaultEntries options (js.append (.ocons name (.jarr .anil) .onil)) rest
      else
        match fieldDefaultValue fd.kind with
        | none => printDefaultEntries options js rest
        | some dv =>
          match scalarFieldToJsonObject options fd dv with
          | .error e => .error e
          | .ok jv => printDefaultEntries options (js.append (.ocons name jv .onil)) rest

mutual
/-- `_Printer._MessageToJsonObject` (lines 83-87): custom serializers first,
then the base class: well-known-type JSON methods (outside the fragment) or
`_RegularMessageToJsonObject` (populated fields, then optional defaults). -/
def messageToJsonObject (serializers : List (String × SerFn)) (pool : List Descriptor)
    (options : PrintOptions) : PMessage → Except SErr JValue
  | .mk typeName fields =>
    match dictGet serializers typeName with
    | some ser => .ok (ser (.mk typeName fields))
    | none =>
      if typeName ∈ wellKnownJsonNames then .error .unmodeledWkt
      else
        match printPopulatedFields serializers pool options fields with
        | .error e => .error e
        | .ok js =>
          if options.includingDefaultValueFields then
            match poolFind pool typeName with
            | none => .error .descriptorMissing
            | some d =>
              match printDefaultEntries options js d.fields with
              | .ok jsFull => .ok (.jobj jsFull)
              | .error e => .error e
          else .ok (.jobj js)

/-- The `for field, value in message.ListFields()` loop of
`_RegularMessageToJsonObject`: repeated fields become lists of per element
conversions, singular fields convert directly; keys use the camelcase name
unless `preserving_proto_field_name` is set. -/
def printPopulatedFields (serializers : List (String × SerFn)) (pool : List Descriptor)
    (options : PrintOptions) : PFields → Except SErr JObj
  | .pnil => .ok .onil
  | .pcons fd payload rest =>
    let name := if options.preservingProtoFieldName then fd.name else fd.camelcaseName
    match payload with
    | .single v =>
      match fieldToJsonObject serializers pool options fd v with
      | .error e => .error e
      | .ok jv =>
        match printPopulatedFields serializers pool options rest with
        | .ok js => .ok (.ocons name jv js)
        | .error e => .error e
    | .repeated vs =>
      match printRepeatedField serializers pool options fd vs with
      | .error e => .error e
      | .ok items =>
        match printPopulatedFields serializers pool options rest with
        | .ok js => .ok (.ocons name (.jarr items) js)
        | .error e => .error e

/-- Element loop of a repeated field. -/
def printRepeatedField (serializers : List (String × SerFn)) (pool : List Descriptor)
    (options : PrintOptions) (fd : FieldDescriptor) : PList → Except SErr JArr
  | .lnil => .ok .anil
  | .lcons v rest =>
    match fieldToJsonObject serializers pool options fd v with
    | .error e => .error e
    | .ok jv =>
      match printRepeatedField serializers pool options fd rest with
      | .ok items => .ok (.acons jv items)
      | .error e => .error e

/-- `_Printer._FieldToJsonObject`: message fields recurse through
`_MessageToJsonObject`, every other kind is scalar conversion. -/
def fieldToJsonObject (serializers : List (String × SerFn)) (pool : List Descriptor)
    (options : PrintOptions) (fd : FieldDescriptor) : PValue → Except SErr JValue
  | .pmsg sub =>
    if fd.kind.cppType = CppType.cppMessage then
      messageToJsonObject serializers pool options sub
    else .error .unmodeledValue
  | .pint i =>
    if fd.kind.cppType = CppType.cppMessage then .error .unmodeledValue
    else scalarFieldToJsonObject options fd (.pint i)
  | .pstr s =>
    if fd.kind.cppType = CppType.cppMessage then .error .unmodeledValue
    else scalarFieldToJsonObject options fd (.pstr s)
  | .pbytes b =>
    if fd.kind.cppType = CppType.cppMessage then .error .unmodeledValue
    else scalarFieldToJsonObject options fd (.pbytes b)
  | .pbool b =>
    if fd.kind.cppType = CppType.cppMessage then .error .unmodeledValue
    else scalarFieldToJsonObject options fd (.pbool b)
  | .penum n =>
    if fd.kind.cppType = CppType.cppMessage then .error .unmodeledValue
    else scalarFieldToJsonObject options fd (.penum n)
end

/-- `MessageConverter.message_to_dict` (lines 204-222): run the overridden
printer with the converter's custom serializers. -/
def message_to_dict (mc : MessageConverter) (pool : List Descriptor)
    (options : PrintOptions) (message : PMessage) : Except SErr JValue :=
  messageToJsonObject mc.customSerializers pool options message

/-! ## Decode direction: parse_dict (lines 224-239) over the overridden
parser (lines 102-143) -/

/-- The parser options accepted by `parse_dict`. -/
structure ParseOptions where
  ignoreUnknownFields : Bool := false
  maxRecursionDepth : Nat := 100
deriving DecidableEq, Repr

/-- `fields_by_json_name` lookup (camelcase names in the fragment). -/
def findFieldByCamelcase : List FieldDescriptor → String → Option FieldDescriptor
  | [], _ => none
  | f :: rest, key => if f.camelcaseName = key then some f else findFieldByCamelcase rest key

/-- `fields_by_name` lookup. -/
def findFieldByName : List FieldDescriptor → String → Option FieldDescriptor
  | [], _ => none
  | f :: rest, key => if f.name = key then some f else findFieldByName rest key

/-- Field resolution of `_ConvertFieldValuePair`: `fields_by_json_name`
first, `fields_by_name` second. -/
def findField (d : Descriptor) (key : String) : Option FieldDescriptor :=
  match findFieldByCamelcase d.fields key with
  | some f => some f
  | none => findFieldByName d.fields key

/-- The type and range check the protobuf runtime performs when a converted
scalar is assigned to a field. -/
def scalarFits (kind : FieldKind) (v : PValue) : Bool :=
  match kind, v with
  | .int32K, .pint i => decide (-(2 ^ 31) ≤ i) && decide (i < 2 ^ 31)
  | .int64K, .pint i => decide (-(2 ^ 63) ≤ i) && decide (i < 2 ^ 63)
  | .uint32K, .pint i => decide (0 ≤ i) && decide (i < 2 ^ 32)
  | .uint64K, .pint i => decide (0 ≤ i) && decide (i < 2 ^ 64)
  | .boolK, .pbool _ => true
  | .enumK _, .penum n => decide (-(2 ^ 31) ≤ n) && decide (n < 2 ^ 31)
  | .stringK, .pstr _ => true
  | .bytesK, .pbytes _ => true
  | _, _ => false

/-- Whether a scalar value is the proto3 default: assigning it to a singular
field without presence leaves the field unpopulated. -/
def isDefaultScalar : PValue → Bool
  | .pint i => i == 0
  | .pstr s => s == ("" : String)
  | .pbytes b => b.isEmpty
  | .pbool b => !b
  | .penum n => n == 0
  | .pmsg _ => false

/-- Store a converted payload into the message being built: protobuf keeps
fields in field number order regardless of assignment order, and assigning a
field twice overwrites. -/
def setFieldSorted : PFields → FieldDescriptor → PPayload → PFields
  | .pnil, fd, p => .pcons fd p .pnil
  | .pcons g q rest, fd, p =>
    if fd.number < g.number then .pcons fd p (.pcons g q rest)
    else if fd.number = g.number then .pcons fd p rest
    else .pcons g q (setFieldSorted rest fd p)

/-- Convert the items of a repeated scalar field with the current module
level scalar conversion function, checking each assignment. -/
def convertRepeatedScalars (fn : JValue → FieldDescriptor → Except PErr PValue)
    (fd : FieldDescriptor) : JArr → Except PErr PList
  | .anil => .ok .lnil
  | .acons item rest =>
    match item with
    | .jnull => .error .badValue
    | _ =>
      match fn item fd with
      | .error e => .error e
      | .ok v =>
        if scalarFits fd.kind v then
          match convertRepeatedScalars fn fd rest with
          | .ok vs => .ok (.lcons v vs)
          | .error e => .error e
        else .error .badValue

/-- Store the result of a repeated conversion: an empty list leaves the
field cleared (absent), a nonempty one assigns it. -/
def storeRepeated (acc : PFields) (fd : FieldDescriptor) : PList → PFields
  | .lnil => acc
  | vs => setFieldSorted acc fd (.repeated vs)

/-- Store a converted scalar: assigning the proto3 default leaves the field
unpopulated. -/
def storeScalar (acc : PFields) (fd : FieldDescriptor) (sv : PValue) : PFields :=
  if isDefaultScalar sv then acc else setFieldSorted acc fd (.single sv)

/-- Repeated scalar field handling on the raw value: `ClearField`, the
`isinstance(value, list)` check, then the element loop. -/
def convertRepeatedScalarsValue (fn : JValue → FieldDescriptor → Except PErr PValue)
    (fd : FieldDescriptor) : JValue → Except PErr PList
  | .jarr items => convertRepeatedScalars fn fd items
  | _ => .error .badValue

/-- Install the `_handle_bytes` patch on the module state (the body of the
context manager before `yield`). -/
def patchSt (st : JsonFormatModule) : JsonFormatModule :=
  { convertScalarFieldValue := handle_bytes st.convertScalarFieldValue }

/-- The `finally` of `_patched_convert_scalar_field_value`: write the saved
function of `stBefore` back into the module state left by the body. -/
def restoredFrom (stBefore stAfter : JsonFormatModule) : JsonFormatModule :=
  { stAfter with convertScalarFieldValue := stBefore.convertScalarFieldValue }

mutual
/-- `_Parser.ConvertMessage` override (lines 109-115): custom deserializers
first; otherwise patch the module state
(`_patched_convert_scalar_field_value`, lines 133-143), run the base
`json_format._Parser.ConvertMessage` (inlined here: recursion guard,
well-known-type dispatch — outside the fragment — then
`_ConvertFieldValuePair`), and restore the module attribute in the
`finally`, whether the run succeeded or raised.  `depth` counts the active
base `ConvertMessage` frames (`recursion_depth`). -/
def convertMessage (deserializers : List (String × DeserFn)) (pool : List Descriptor)
    (options : ParseOptions) (st : JsonFormatModule) (depth : Nat)
    (typeName : String) : JValue → JsonFormatModule × Except PErr PMessage
  | .jobj entries =>
    match dictGet deserializers typeName with
    | some deser => (st, deser (.jobj entries))
    | none =>
      if options.maxRecursionDepth < depth + 1 then
        (restoredFrom st (patchSt st), .error .messageTooDeep)
      else if typeName ∈ wellKnownJsonNames then
        (restoredFrom st (patchSt st), .error .unmodeled)
      else
        match poolFind pool typeName with
        | none => (restoredFrom st (patchSt st), .error .unmodeled)
        | some d =>
          match convertEntries deserializers pool options (patchSt st) (depth + 1) d []
              PFields.pnil entries with
          | (st2, .ok fields) => (restoredFrom st st2, .ok (.mk d.fullName fields))
          | (st2, .error e) => (restoredFrom st st2, .error e)
  | value =>
    -- a non dict value takes the same path but fails inside
    -- _ConvertFieldValuePair; the guard chain and the patching are identical
    match dictGet deserializers typeName with
    | some deser => (st, deser value)
    | none =>
      if options.maxRecursionDepth < depth + 1 then
        (restoredFrom st (patchSt st), .error .messageTooDeep)
      else if typeName ∈ wellKnownJsonNames then
        (restoredFrom st (patchSt st), .error .unmodeled)
      else
        match poolFind pool typeName with
        | none => (restoredFrom st (patchSt st), .error .unmodeled)
        | some _ => (restoredFrom st (patchSt st), .error .badValue)

/-- The `for name in js` loop of `_ConvertFieldValuePair`, threading the
module state, the list of names already assigned (duplicate detection) and
the message being populated. -/
def convertEntries (deserializers : List (String × DeserFn)) (pool : List Descriptor)
    (options : ParseOptions) (st : JsonFormatModule) (depth : Nat)
    (d : Descriptor) (names : List String) (acc : PFields) :
    JObj → JsonFormatModule × Except PErr PFields
  | .onil => (st, .ok acc)
  | .ocons name v rest =>
    match findField d name with
    | none =>
      if options.ignoreUnknownFields then
        convertEntries deserializers pool options st depth d names acc rest
      else (st, .error (.unknownField name))
    | some fd =>
      if name ∈ names then (st, .error (.duplicateField name))
      else
        match v with
        | .jnull =>
          -- value None: ClearField and continue
          convertEntries deserializers pool options st depth d (name :: names) acc rest
        | _ =>
          if fd.isRepeated then
            if fd.kind.cppType = CppType.cppMessage then
              match fd.kind.messageTypeName with
              | some subName =>
                match convertRepeatedMessageField deserializers pool options st depth
                    subName v with
                | (st2, .ok vs) =>
                  convertEntries deserializers pool options st2 depth d (name :: names)
                    (storeRepeated acc fd vs) rest
                | (st2, .error e) => (st2, .error e)
              | none => (st, .error .unmodeled)
            else
              match convertRepeatedScalarsValue st.convertScalarFieldValue fd v with
              | .ok vs =>
                convertEntries deserializers pool options st depth d (name :: names)
                  (storeRepeated acc fd vs) rest
              | .error e => (st, .error e)
          else if fd.kind.cppType = CppType.cppMessage then
            match fd.kind.messageTypeName with
            | some subName =>
              match convertMessage deserializers pool options st depth subName v with
              | (st2, .ok sub) =>
                convertEntries deserializers pool options st2 depth d (name :: names)
                  (setFieldSorted acc fd (.single (.pmsg sub))) rest
              | (st2, .error e) => (st2, .error e)
            | none => (st, .error .unmodeled)
          else
            match st.convertScalarFieldValue v fd with
            | .ok sv =>
              if scalarFits fd.kind sv then
                convertEntries deserializers pool options st depth d (name :: names)
                  (storeScalar acc fd sv) rest
              else (st, .error .badValue)
            | .error e => (st, .error e)

/-- Repeated message field handling on the raw value: `ClearField`, the
`isinstance(value, list)` check, then the element loop. -/
def convertRepeatedMessageField (deserializers : List (String × DeserFn))
    (pool : List Descriptor) (options : ParseOptions) (st : JsonFormatModule)
    (depth : Nat) (subName : String) : JValue → JsonFormatModule × Except PErr PList
  | .jarr items =>
    convertRepeatedMessages deserializers pool options st depth subName items
  | _ => (st, .error .badValue)

/-- Repeated message field: each item populates a fresh present element via
`ConvertMessage`. -/
def convertRepeatedMessages (deserializers : List (String × DeserFn))
    (pool : List Descriptor) (options : ParseOptions) (st : JsonFormatModule)
    (depth : Nat) (subName : String) : JArr → JsonFormatModule × Except PErr PList
  | .anil => (st, .ok .lnil)
  | .acons item rest =>
    match item with
    | .jnull => (st, .error .badValue)
    | _ =>
      match convertMessage deserializers pool options st depth subName item with
      | (st2, .ok sub) =>
        match convertRepeatedMessages deserializers pool options st2 depth subName rest with
        | (st3, .ok vs) => (st3, .ok (.lcons (.pmsg sub) vs))
        | (st3, .error e) => (st3, .error e)
      | (st2, .error e) => (st2, .error e)
end

/-- `MessageConverter.parse_dict` (lines 224-239): run the overridden parser
from the unpatched module state, populating a fresh message of the given
type. -/
def parse_dict (mc : MessageConverter) (pool : List Descriptor) (options : ParseOptions)
    (value : JValue) (typeName : String) : Except PErr PMessage :=
  (convertMessage mc.customDeserializers pool options jsonFormatModuleStart 0 typeName value).2

/-! ## Concrete descriptors used by the claims -/

/-- Build a plain field descriptor (no options, not deprecated). -/
def mkField (name : String) (number : Nat) (kind : FieldKind) (rep : Bool) :
    FieldDescriptor :=
  { name := name, camelcaseName := name, number := number, kind := kind,
    isRepeated := rep, hasOptions := false, deprecated := false }

/-- ASCII byte values of a string literal. -/
def strBytes (s : String) : List Nat := s.toList.map Char.toNat

/-- Build a PFields list from a plain list. -/
def pfieldsOfList : List (FieldDescriptor × PPayload) → PFields
  | [] => .pnil
  | (fd, p) :: rest => .pcons fd p (pfieldsOfList rest)

/-- Build a PList from a plain list. -/
def plistOfList : List PValue → PList
  | [] => .lnil
  | v :: rest => .lcons v (plistOfList rest)

/-- Build a JObj from a plain list. -/
def jobjOfList : List (String × JValue) → JObj
  | [] => .onil
  | (k, v) :: rest => .ocons k v (jobjOfList rest)

/-- Build a JArr from a plain list. -/
def jarrOfList : List JValue → JArr
  | [] => .anil
  | v :: rest => .acons v (jarrOfList rest)

def nestedMessageName : String := "example.NestedMessage"
def exampleMessageName : String := "example.ExampleMessage"

def nmKeyField : FieldDescriptor := mkField ("key") 1 .stringK false
def nmValueField : FieldDescriptor := mkField ("value") 2 .stringK false

/-- The nested message of the concrete scenario: two string fields. -/
def nestedMessageDescriptor : Descriptor :=
  { fullName := nestedMessageName, fields := [nmKeyField, nmValueField] }

/-- The enum of the concrete scenario; `first` is value 1. -/
def someEnumValues : List (String × Int) := [("zero", 0), ("first", 1), ("second", 2)]

def exInt32Field : FieldDescriptor := mkField ("int32") 1 .int32K false
def exStringlistField : FieldDescriptor := mkField ("stringlist") 2 .stringK true
def exBytesField : FieldDescriptor := mkField ("bytes") 3 .bytesK false
def exNestedField : FieldDescriptor := mkField ("nested") 4 (.messageK nestedMessageName) false
def exEnumField : FieldDescriptor := mkField ("enum") 5 (.enumK someEnumValues) false

/-- The message type of the concrete scenario of the spec: int32, repeated
string, bytes, nested message and enum fields. -/
def exampleMessageDescriptor : Descriptor :=
  { fullName := exampleMessageName,
    fields := [exInt32Field, exStringlistField, exBytesField, exNestedField, exEnumField] }

def examplePool : List Descriptor :=
  [exampleMessageDescriptor, nestedMessageDescriptor, timestampDescriptor]

/-- The message instance of the concrete scenario. -/
def exampleMsg : PMessage :=
  .mk exampleMessageName
    (pfieldsOfList
      [(exInt32Field, .single (.pint 69)),
       (exStringlistField, .repeated (plistOfList
         [.pstr ("one"), .pstr ("two"), .pstr ("three")])),
       (exBytesField, .single (.pbytes (strBytes ("something")))),
       (exNestedField, .single (.pmsg (.mk nestedMessageName
         (pfieldsOfList
           [(nmKeyField, .single (.pstr ("hello"))),
            (nmValueField, .single (.pstr ("world")))])))),
       (exEnumField, .single (.penum 1))])

/-- The mapping the concrete scenario expects from `message_to_dict`. -/
def exampleDict : JValue :=
  .jobj (jobjOfList
    [(("int32"), .jint 69),
     (("stringlist"), .jarr (jarrOfList
       [.jstr ("one"), .jstr ("two"), .jstr ("three")])),
     (("bytes"), .jbytes (strBytes ("something")) false),
     (("nested"), .jobj (jobjOfList
       [(("key"), .jstr ("hello")), (("value"), .jstr ("world"))])),
     (("enum"), .jstr ("first"))])

/-- A type whose only field is of its own type (pure self reference). -/
def selfRecName : String := "example.SelfRec"

def selfRecDescriptor : Descriptor :=
  { fullName := selfRecName, fields := [mkField ("a") 1 (.messageK selfRecName) false] }

/-- A self referential type that also has a scalar field, the scalar first. -/
def selfRecMixedName : String := "example.SelfRecMixed"

def selfRecMixedDescriptor : Descriptor :=
  { fullName := selfRecMixedName,
    fields :=
      [mkField ("x") 1 .int32K false,
       mkField ("a") 2 (.messageK selfRecMixedName) false] }

/-- A self referential type whose self field comes before a scalar field. -/
def selfRecLateScalarName : String := "example.SelfRecLateScalar"

def selfRecLateScalarDescriptor : Descriptor :=
  { fullName := selfRecLateScalarName,
    fields :=
      [mkField ("a") 1 (.messageK selfRecLateScalarName) false,
       mkField ("x") 2 .int32K false] }

def cyclePool : List Descriptor :=
  [selfRecDescriptor, selfRecMixedDescriptor, selfRecLateScalarDescriptor]

/-- The custom-serialized type of claim C3 (one string field, like the test
DecimalMessage). -/
def decimalMessageName : String := "example.DecimalMessage"

def decimalMessageDescriptor : Descriptor :=
  { fullName := decimalMessageName, fields := [mkField ("value") 1 .stringK false] }

/-- A message containing the custom type next to a scalar field. -/
def containerName : String := "example.Container"

def containerDescriptor : Descriptor :=
  { fullName := containerName,
    fields :=
      [mkField ("dec") 1 (.messageK decimalMessageName) false,
       mkField ("x") 2 .int32K false] }

/-- A message containing only the custom type. -/
def containerMsgOnlyName : String := "example.ContainerMsgOnly"

def containerMsgOnlyDescriptor : Descriptor :=
  { fullName := containerMsgOnlyName,
    fields := [mkField ("dec") 1 (.messageK decimalMessageName) false] }

def overridePool : List Descriptor :=
  [decimalMessageDescriptor, containerDescriptor, containerMsgOnlyDescriptor]

/-- A placeholder custom serializer for the C3 registration (its behavior is
irrelevant to schema derivation). -/
def decimalSerializer : SerFn := fun _ => .jnull

/-- The sibling-branch pool of claim C8: A has two fields of type B; B has a
string field and no cycles. -/
def siblingBName : String := "example.SibB"

def siblingBDescriptor : Descriptor :=
  { fullName := siblingBName, fields := [mkField ("s") 1 .stringK false] }

def siblingAName : String := "example.SibA"

def siblingADescriptor : Descriptor :=
  { fullName := siblingAName,
    fields :=
      [mkField ("b1") 1 (.messageK siblingBName) false,
       mkField ("b2") 2 (.messageK siblingBName) false] }

/-- The same shape with a fieldless B, which dodges the line 272 slip. -/
def siblingBEmptyName : String := "example.SibBEmpty"

def siblingBEmptyDescriptor : Descriptor :=
  { fullName := siblingBEmptyName, fields := [] }

def siblingAEmptyName : String := "example.SibAEmpty"

def siblingAEmptyDescriptor : Descriptor :=
  { fullName := siblingAEmptyName,
    fields :=
      [mkField ("b1") 1 (.messageK siblingBEmptyName) false,
       mkField ("b2") 2 (.messageK siblingBEmptyName) false] }

def siblingPool : List Descriptor :=
  [siblingBDescriptor, siblingADescriptor, siblingBEmptyDescriptor, siblingAEmptyDescriptor]

/-- A message type with a single int64 field, for the 64 bit claims. -/
def int64MessageName : String := "example.Int64Message"

def i64Field : FieldDescriptor := mkField ("x") 1 .int64K false

def int64MessageDescriptor : Descriptor :=
  { fullName := int64MessageName, fields := [i64Field] }

/-- One instance holding a given int64 value. -/
def int64Msg (i : Int) : PMessage :=
  .mk int64MessageName (pfieldsOfList [(i64Field, .single (.pint i))])

/-- A message type with a single bytes field, for the byte fidelity claim. -/
def bytesMessageName : String := "example.BytesMessage"

def bmDataField : FieldDescriptor := mkField ("data") 1 .bytesK false

def bytesMessageDescriptor : Descriptor :=
  { fullName := bytesMessageName, fields := [bmDataField] }

def bytesMsg (b : List Nat) : PMessage :=
  .mk bytesMessageName (pfieldsOfList [(bmDataField, .single (.pbytes b))])

/-- A message type holding one timestamp field. -/
def tsHolderName : String := "example.TsHolder"

def thWhenField : FieldDescriptor := mkField ("when") 1 (.messageK timestampFullName) false

def tsHolderDescriptor : Descriptor :=
  { fullName := tsHolderName, fields := [thWhenField] }

def tsHolderMsg (s n : Int) : PMessage :=
  .mk tsHolderName (pfieldsOfList [(thWhenField, .single (.pmsg (mkTimestampMessage s n)))])

/-- A self nesting chain type, to exercise the parser recursion limit. -/
def chainName : String := "example.Chain"

def chainChildField : FieldDescriptor := mkField ("child") 1 (.messageK chainName) false

def chainDescriptor : Descriptor :=
  { fullName := chainName, fields := [chainChildField] }

/-- The chain message of the given extra depth: `chainMsg 0` is an empty
chain node, `chainMsg (n+1)` nests another node. -/
def chainMsg : Nat → PMessage
  | 0 => .mk chainName .pnil
  | n + 1 => .mk chainName (pfieldsOfList [(chainChildField, .single (.pmsg (chainMsg n)))])

def valuePool : List Descriptor :=
  [exampleMessageDescriptor, nestedMessageDescriptor, int64MessageDescriptor,
   bytesMessageDescriptor, tsHolderDescriptor, chainDescriptor, timestampDescriptor]

/-- A message type with a single uint64 field, for the 64 bit fidelity
claim. -/
def uint64MessageName : String := "example.UInt64Message"

def u64Field : FieldDescriptor := mkField ("x") 1 .uint64K false

def uint64MessageDescriptor : Descriptor :=
  { fullName := uint64MessageName, fields := [u64Field] }

/-- One instance holding a given uint64 value. -/
def uint64Msg (i : Int) : PMessage :=
  .mk uint64MessageName (pfieldsOfList [(u64Field, .single (.pint i))])

/-- The pool of the uint64 round trip. -/
def uint64Pool : List Descriptor := [uint64MessageDescriptor]

/-! ## Well-formed messages and the nesting depth measure

The round trip theorem quantifies over all messages of the modelled
fragment.  `wfMsg` pins down exactly the message states the protobuf
runtime itself maintains: populated fields in ascending field number order,
taken from the message's descriptor, scalars within their ranges and
different from their proto3 defaults, repeated fields nonempty, nested
messages well formed in turn.  Messages of a type with a registered custom
serializer are instead constrained by the predicate `P` supplied with the
registration hypotheses. -/

/-- The key under which a field is serialized. -/
def renderedKey (preserving : Bool) (fd : FieldDescriptor) : String :=
  if preserving then fd.name else fd.camelcaseName

/-- Enum value tables must have distinct value names for names to round
trip. -/
def fieldKindOk : FieldKind → Bool
  | .enumK values => decide ((values.map Prod.fst).Nodup)
  | _ => true

/-- Per descriptor name discipline: distinct camelcase names, distinct
names, and no field's camelcase name equal to a different field's name (so
that `fields_by_json_name` lookup cannot capture a key that was serialized
from another field's name). -/
def fieldNamesOk (fields : List FieldDescriptor) : Bool :=
  decide ((fields.map fun f => f.camelcaseName).Nodup) &&
  decide ((fields.map fun f => f.name).Nodup) &&
  decide (∀ f ∈ fields, ∀ g ∈ fields, g.camelcaseName = f.name → g = f)

/-- Descriptor sanity for the round trip. -/
def descriptorOk (d : Descriptor) : Bool :=
  fieldNamesOk d.fields && d.fields.all fun f => fieldKindOk f.kind

/-- Pool sanity: distinct type names, sane descriptors. -/
def wfPool (pool : List Descriptor) : Bool :=
  decide ((pool.map fun d => d.fullName).Nodup) && pool.all descriptorOk

mutual
/-- Well-formed message: either of a custom-serialized type (constrained by
`P`), or a regular message over a pool descriptor. -/
def wfMsg (pool : List Descriptor) (customNames : List String)
    (P : String → PMessage → Bool) : PMessage → Bool
  | .mk tn fields =>
    if tn ∈ customNames then P tn (.mk tn fields)
    else
      decide (tn ∉ wellKnownJsonNames) &&
      match poolFind pool tn with
      | none => false
      | some d => wfFields pool customNames P d 0 fields

/-- Well-formed populated field list: strictly ascending field numbers above
the bound, each field from the descriptor with a well-formed payload. -/
def wfFields (pool : List Descriptor) (customNames : List String)
    (P : String → PMessage → Bool) (d : Descriptor) (minNumber : Nat) : PFields → Bool
  | .pnil => true
  | .pcons fd payload rest =>
    decide (fd ∈ d.fields) && decide (minNumber < fd.number) &&
    wfPayload pool customNames P fd payload &&
    wfFields pool customNames P d fd.number rest

/-- Payload discipline: singular scalars are non default and in range,
singular messages well formed with the declared type, repeated payloads
nonempty with well-formed elements. -/
def wfPayload (pool : List Descriptor) (customNames : List String)
    (P : String → PMessage → Bool) (fd : FieldDescriptor) : PPayload → Bool
  | .single v =>
    !fd.isRepeated && wfValue pool customNames P fd.kind v &&
    (fd.kind.cppType = CppType.cppMessage || !isDefaultScalar v)
  | .repeated vs =>
    fd.isRepeated &&
    (match vs with
     | .lnil => false
     | _ => wfList pool customNames P fd.kind vs)

/-- Well-formed field value for the given kind. -/
def wfValue (pool : List Descriptor) (customNames : List String)
    (P : String → PMessage → Bool) (kind : FieldKind) : PValue → Bool
  | .pmsg sub =>
    match kind with
    | .messageK tn => sub.typeName == tn && wfMsg pool customNames P sub
    | _ => false
  | v =>
    match kind with
    | .messageK _ => false
    | k => scalarFits k v

/-- Elements of a repeated field. -/
def wfList (pool : List Descriptor) (customNames : List String)
    (P : String → PMessage → Bool) (kind : FieldKind) : PList → Bool
  | .lnil => true
  | .lcons v rest =>
    wfValue pool customNames P kind v && wfList pool customNames P kind rest
end

mutual
/-- The number of nested base `ConvertMessage` frames a decode of this
message needs (custom-deserialized types cost none). -/
def msgDepth (customNames : List String) : PMessage → Nat
  | .mk tn fields =>
    if tn ∈ customNames then 0 else 1 + fieldsDepth customNames fields

def fieldsDepth (customNames : List String) : PFields → Nat
  | .pnil => 0
  | .pcons _ payload rest =>
    max (payloadDepth customNames payload) (fieldsDepth customNames rest)

def payloadDepth (customNames : List String) : PPayload → Nat
  | .single v => valueDepth customNames v
  | .repeated vs => listDepth customNames vs

def valueDepth (customNames : List String) : PValue → Nat
  | .pmsg m => msgDepth customNames m
  | _ => 0

def listDepth (customNames : List String) : PList → Nat
  | .lnil => 0
  | .lcons v rest => max (valueDepth customNames v) (listDepth customNames rest)
end

/-- Append two populated field lists. -/
def pfieldsAppend : PFields → PFields → PFields
  | .pnil, fs => fs
  | .pcons fd p rest, fs => .pcons fd p (pfieldsAppend rest fs)

/-- All field numbers bounded by `n`. -/
def pfieldsNumbersLe : PFields → Nat → Bool
  | .pnil, _ => true
  | .pcons fd _ rest, n => decide (fd.number ≤ n) && pfieldsNumbersLe rest n

/-- The serialized keys of a populated field list. -/
def pfieldsKeys (preserving : Bool) : PFields → List String
  | .pnil => []
  | .pcons fd _ rest => renderedKey preserving fd :: pfieldsKeys preserving rest

/-- True unless the value is Python `None`. -/
def jvalueNotNull : JValue → Bool
  | .jnull => false
  | _ => true

/-- The alignment hypothesis of the round trip theorem: the custom
serializer and deserializer registries have the same domain, serializers
never return `None`, and on every message accepted by `P` the registered
deserializer undoes the registered serializer. -/
def customsAligned (sers : List (String × SerFn)) (desers : List (String × DeserFn))
    (P : String → PMessage → Bool) : Prop :=
  (∀ tn, (dictGet sers tn).isSome = (dictGet desers tn).isSome) ∧
  (∀ tn ser m, dictGet sers tn = some ser → P tn m = true → PMessage.typeName m = tn →
    jvalueNotNull (ser m) = true ∧
    ∀ deser, dictGet desers tn = some deser → deser (ser m) = .ok m)

/-- The canonical-form predicate under which the default timestamp override
round trips: the message is exactly the canonical timestamp built from its
own seconds and nanos. -/
def timestampCanonical (tn : String) (m : PMessage) : Bool :=
  tn == timestampFullName &&
  m == mkTimestampMessage (timestampSeconds m) (timestampNanos m)


/-- Keys of a dict are distinct (Python dicts cannot hold duplicates). -/
def dictKeysNodup {α : Type} (d : List (String × α)) : Prop :=
  (d.map Prod.fst).Nodup

/-- Every type with a registered custom serializer also has a schema-map
entry. -/
def serializerSchemaInvariant (mc : MessageConverter) : Prop :=
  ∀ n, (dictGet mc.customSerializers n).isSome = true →
    (dictGet mc.messageTypeToSparkTypeMap n).isSome = true

/-- The inductive state predicate: distinct keys in both registries plus
the lockstep invariant. -/
def converterStateOk (mc : MessageConverter) : Prop :=
  dictKeysNodup mc.customSerializers ∧ dictKeysNodup mc.messageTypeToSparkTypeMap ∧
  serializerSchemaInvariant mc

/-- A scalar conversion function that agrees with the unpatched
`_ConvertScalarFieldValue` on every non byte field (the module state always
satisfies this, whether patched zero, one or more times). -/
def nonBytesLikeBase (fn : JValue → FieldDescriptor → Except PErr PValue) : Prop :=
  ∀ v fd, ¬(fd.kind.cppType = CppType.cppString ∧ fd.kind.isTypeBytes = true) →
    fn v fd = baseConvertScalarFieldValue v fd

/-- A scalar conversion function that behaves exactly like the patched
original — what the parser body observes while the context manager is
active. -/
def patchedLikeBase (fn : JValue → FieldDescriptor → Except PErr PValue) : Prop :=
  ∀ v fd, fn v fd = handle_bytes baseConvertScalarFieldValue v fd

/-! ## Dictionary lemmas -/

theorem dictGet_dictSet {α : Type} (d : List (String × α)) (k : String) (v : α)
    (key : String) :
    dictGet (dictSet d k v) key = if k = key then some v else dictGet d key := by
  induction d with
  | nil => simp [dictSet, dictGet]
  | cons hd rest ih =>
    obtain ⟨k0, v0⟩ := hd
    by_cases h0 : k0 = k <;> by_cases h1 : k = key <;> by_cases h2 : k0 = key <;>
      simp_all [dictSet, dictGet]

theorem dictGet_dictPop_ne {α : Type} (d : List (String × α)) (k key : String)
    (h : k ≠ key) : dictGet (dictPop d k) key = dictGet d key := by
  induction d with
  | nil => simp [dictPop, dictGet]
  | cons hd rest ih =>
    obtain ⟨k0, v0⟩ := hd
    by_cases h0 : k0 = k <;> by_cases h2 : k0 = key <;>
      simp_all [dictPop, dictGet]

theorem mem_keys_of_dictGet_isSome {α : Type} (d : List (String × α)) (key : String)
    (h : (dictGet d key).isSome = true) : key ∈ d.map Prod.fst := by
  induction d with
  | nil => simp [dictGet] at h
  | cons hd rest ih =>
    obtain ⟨k0, v0⟩ := hd
    by_cases h0 : k0 = key
    · subst h0
      exact List.mem_cons_self _ _
    · simp only [dictGet, if_neg h0] at h
      exact List.mem_cons_of_mem _ (ih h)

theorem dictGet_dictPop_self {α : Type} (d : List (String × α)) (k : String)
    (h : dictKeysNodup d) : dictGet (dictPop d k) k = none := by
  induction d with
  | nil => simp [dictPop, dictGet]
  | cons hd rest ih =>
    obtain ⟨k0, v0⟩ := hd
    simp only [dictKeysNodup, List.map_cons, List.nodup_cons] at h
    by_cases h0 : k0 = k
    · subst h0
      simp only [dictPop, if_pos (rfl : k0 = k0), ite_true]
      cases hg : dictGet rest k0 with
      | none => rfl
      | some w =>
        exact absurd (mem_keys_of_dictGet_isSome rest k0 (by simp [hg])) h.1
    · simp only [dictPop, if_neg h0, dictGet, if_neg h0]
      exact ih h.2

theorem keys_dictSet_subset {α : Type} (d : List (String × α)) (k : String) (v : α) :
    ((dictSet d k v).map Prod.fst) ⊆ k :: d.map Prod.fst := by
  induction d with
  | nil => simp [dictSet]
  | cons hd rest ih =>
    obtain ⟨k0, v0⟩ := hd
    by_cases h0 : k0 = k
    · subst h0
      simp [dictSet]
    · simp only [dictSet, if_neg h0, List.map_cons]
      intro x hx
      rcases List.mem_cons.mp hx with hx1 | hx1
      · subst hx1
        right
        exact List.mem_cons_self _ _
      · rcases List.mem_cons.mp (ih hx1) with h1 | h1
        · subst h1
          exact List.mem_cons_self _ _
        · right
          exact List.mem_cons_of_mem _ h1

theorem keys_dictPop_subset {α : Type} (d : List (String × α)) (k : String) :
    ((dictPop d k).map Prod.fst) ⊆ d.map Prod.fst := by
  induction d with
  | nil => simp [dictPop]
  | cons hd rest ih =>
    obtain ⟨k0, v0⟩ := hd
    by_cases h0 : k0 = k
    · subst h0
      simp only [dictPop, if_pos (rfl : k0 = k0), ite_true, List.map_cons]
      exact List.subset_cons_self _ _
    · simp only [dictPop, if_neg h0, List.map_cons]
      intro x hx
      rcases List.mem_cons.mp hx with hx1 | hx1
      · subst hx1
        exact List.mem_cons_self _ _
      · exact List.mem_cons_of_mem _ (ih hx1)

theorem dictKeysNodup_dictSet {α : Type} (d : List (String × α)) (k : String) (v : α)
    (h : dictKeysNodup d) : dictKeysNodup (dictSet d k v) := by
  induction d with
  | nil => simp [dictKeysNodup, dictSet]
  | cons hd rest ih =>
    obtain ⟨k0, v0⟩ := hd
    simp only [dictKeysNodup, List.map_cons, List.nodup_cons] at h
    by_cases h0 : k0 = k
    · subst h0
      simp only [dictSet, if_pos (rfl : k0 = k0), ite_true]
      simp only [dictKeysNodup, List.map_cons, List.nodup_cons]
      exact h
    · simp only [dictSet, if_neg h0]
      simp only [dictKeysNodup, List.map_cons, List.nodup_cons]
      refine ⟨?_, ih h.2⟩
      intro hmem
      rcases List.mem_cons.mp (keys_dictSet_subset rest k v hmem) with hh | hh
      · exact h0 hh
      · exact h.1 hh

theorem dictKeysNodup_dictPop {α : Type} (d : List (String × α)) (k : String)
    (h : dictKeysNodup d) : dictKeysNodup (dictPop d k) := by
  induction d with
  | nil => simpa [dictPop] using h
  | cons hd rest ih =>
    obtain ⟨k0, v0⟩ := hd
    simp only [dictKeysNodup, List.map_cons, List.nodup_cons] at h
    by_cases h0 : k0 = k
    · subst h0
      simp only [dictPop, if_pos (rfl : k0 = k0), ite_true]
      exact h.2
    · simp only [dictPop, if_neg h0]
      simp only [dictKeysNodup, List.map_cons, List.nodup_cons]
      refine ⟨?_, ih h.2⟩
      intro hmem
      exact h.1 (keys_dictPop_subset rest k hmem)

/-! ## Claim C7: the serializer / schema-map lockstep invariant -/

theorem converterStateOk_init : converterStateOk mkMessageConverter := by
  refine ⟨?_, ?_, ?_⟩
  · simp [mkMessageConverter, register_timestamp_deserializer, register_deserializer,
      register_timestamp_serializer, register_serializer, dictKeysNodup, dictSet]
  · simp only [mkMessageConverter, register_timestamp_deserializer, register_deserializer,
      register_timestamp_serializer, register_serializer]
    simp [dictKeysNodup, dictSet, messagetypeToSparkTypeMap, timestampFullName]
  · intro n h
    simp only [mkMessageConverter, register_timestamp_deserializer, register_deserializer,
      register_timestamp_serializer, register_serializer] at h ⊢
    have hn : timestampFullName = n := by
      by_contra hne
      rw [show (dictSet ([] : List (String × SerFn)) timestampFullName to_datetime)
            = [(timestampFullName, to_datetime)] from rfl] at h
      simp [dictGet, hne] at h
    subst hn
    rw [dictGet_dictSet]
    simp

theorem converterStateOk_step (mc : MessageConverter) (op : ConvOp)
    (h : converterStateOk mc) : converterStateOk (applyConvOp mc op) := by
  obtain ⟨hser, hmap, hinv⟩ := h
  have hreg : ∀ n fn t, converterStateOk (register_serializer mc n fn t) := by
    intro n fn t
    refine ⟨dictKeysNodup_dictSet _ _ _ hser, dictKeysNodup_dictSet _ _ _ hmap, ?_⟩
    intro m hm
    simp only [register_serializer] at hm ⊢
    rw [dictGet_dictSet] at hm ⊢
    by_cases hnm : n = m
    · simp [hnm]
    · simp only [if_neg hnm] at hm ⊢
      exact hinv m hm
  have hunreg : ∀ n, converterStateOk (unregister_serializer mc n) := by
    intro n
    have hser1 : dictKeysNodup (dictPop mc.customSerializers n) :=
      dictKeysNodup_dictPop _ _ hser
    have hmap1 : dictKeysNodup (dictPop mc.messageTypeToSparkTypeMap n) :=
      dictKeysNodup_dictPop _ _ hmap
    have hmain : ∀ m, (dictGet (dictPop mc.customSerializers n) m).isSome = true →
        (dictGet (dictPop mc.messageTypeToSparkTypeMap n) m).isSome = true := by
      intro m hm
      by_cases hnm : n = m
      · subst hnm
        rw [dictGet_dictPop_self _ _ hser] at hm
        simp at hm
      · rw [dictGet_dictPop_ne _ _ _ hnm] at hm
        rw [dictGet_dictPop_ne _ _ _ hnm]
        exact hinv m hm
    simp only [unregister_serializer]
    cases hb : dictGet messagetypeToSparkTypeMap n with
    | none =>
      exact ⟨hser1, hmap1, hmain⟩
    | some b =>
      refine ⟨hser1, dictKeysNodup_dictSet _ _ _ hmap1, ?_⟩
      intro m hm
      simp only at hm ⊢
      rw [dictGet_dictSet]
      by_cases hnm : n = m
      · simp [hnm]
      · simp only [if_neg hnm]
        exact hmain m hm
  cases op with
  | regSerializer n fn t => exact hreg n fn t
  | unregSerializer n => exact hunreg n
  | regDeserializer n fn => exact ⟨hser, hmap, hinv⟩
  | unregDeserializer n => exact ⟨hser, hmap, hinv⟩
  | regTimestampSerializer => exact hreg _ _ _
  | unregTimestampSerializer => exact hunreg _
  | regTimestampDeserializer => exact ⟨hser, hmap, hinv⟩
  | unregTimestampDeserializer => exact ⟨hser, hmap, hinv⟩

theorem converterStateOk_applyConvOps (ops : List ConvOp) :
    ∀ mc, converterStateOk mc → converterStateOk (applyConvOps mc ops) := by
  induction ops with
  | nil => intro mc h; exact h
  | cons op rest ih =>
    intro mc h
    exact ih _ (converterStateOk_step mc op h)

/-- C7: after every sequence of register/unregister operations on a fresh
converter, every type full name with a custom serializer also has a
schema-type entry; registering writes both entries, and unregistering
removes both, restoring the built-in well-known-type entry when one exists
and unmapping the name otherwise. -/
theorem registry_lockstep_invariant :
    (∀ ops : List ConvOp, serializerSchemaInvariant (applyConvOps mkMessageConverter ops))
    ∧ (∀ (mc : MessageConverter) (n : String) (fn : SerFn) (t : SparkType),
        dictGet (register_serializer mc n fn t).customSerializers n = some fn
        ∧ dictGet (register_serializer mc n fn t).messageTypeToSparkTypeMap n = some t)
    ∧ (∀ (mc : MessageConverter) (n : String),
        dictKeysNodup mc.customSerializers → dictKeysNodup mc.messageTypeToSparkTypeMap →
        dictGet (unregister_serializer mc n).customSerializers n = none
        ∧ dictGet (unregister_serializer mc n).messageTypeToSparkTypeMap n
            = dictGet messagetypeToSparkTypeMap n) := by
  refine ⟨?_, ?_, ?_⟩
  · intro ops
    exact (converterStateOk_applyConvOps ops mkMessageConverter converterStateOk_init).2.2
  · intro mc n fn t
    constructor
    · simp only [register_serializer]
      rw [dictGet_dictSet]
      simp
    · simp only [register_serializer]
      rw [dictGet_dictSet]
      simp
  · intro mc n hser hmap
    constructor
    · simp only [unregister_serializer]
      cases hb : dictGet messagetypeToSparkTypeMap n <;>
        simp only [] <;>
        exact dictGet_dictPop_self _ _ hser
    · simp only [unregister_serializer]
      cases hb : dictGet messagetypeToSparkTypeMap n with
      | none =>
        simp only []
        rw [dictGet_dictPop_self _ _ hmap]
      | some b =>
        simp only []
        rw [dictGet_dictSet]
        simp [hb]

/-- Witness for C7, at a concrete operation sequence and name. -/
theorem registry_lockstep_invariant_witness :
    (dictGet (applyConvOps mkMessageConverter
        [ConvOp.regSerializer decimalMessageName decimalSerializer .longType]).messageTypeToSparkTypeMap
      decimalMessageName).isSome = true := by
  refine (registry_lockstep_invariant.1
    [ConvOp.regSerializer decimalMessageName decimalSerializer .longType]
    decimalMessageName) ?_
  rw [show (applyConvOps mkMessageConverter
      [ConvOp.regSerializer decimalMessageName decimalSerializer .longType]).customSerializers
    = dictSet mkMessageConverter.customSerializers decimalMessageName decimalSerializer from rfl]
  rw [dictGet_dictSet]
  simp

/-! ## Claim C10: the scalar-conversion patch is scoped and exception safe -/

theorem restoredFrom_eq (st x : JsonFormatModule) : restoredFrom st x = st := rfl

/-- State preservation of ConvertMessage: whatever the outcome (success or
any error), the module state comes back unchanged. -/
theorem convertMessage_fst (deserializers : List (String × DeserFn))
    (pool : List Descriptor) (options : ParseOptions) (st : JsonFormatModule)
    (depth : Nat) (typeName : String) (value : JValue) :
    (convertMessage deserializers pool options st depth typeName value).1 = st := by
  cases value <;>
    simp only [convertMessage] <;>
    (repeat' split) <;>
    simp [restoredFrom_eq]

/-- C10: `ConvertMessage` replaces the module level scalar conversion
function only for the duration of the structural conversion: the state it
returns always equals the state it received — also on every error path —
and the structural conversion itself runs against the patched state, with
`_handle_bytes` wrapped around the saved function. -/
theorem convert_scalar_patch_scoped :
    (∀ (deserializers : List (String × DeserFn)) (pool : List Descriptor)
        (options : ParseOptions) (st : JsonFormatModule) (depth : Nat)
        (typeName : String) (value : JValue),
      (convertMessage deserializers pool options st depth typeName value).1 = st)
    ∧ (∀ (deserializers : List (String × DeserFn)) (pool : List Descriptor)
        (options : ParseOptions) (st : JsonFormatModule) (depth : Nat)
        (typeName : String) (entries : JObj) (d : Descriptor),
      dictGet deserializers typeName = none →
      typeName ∉ wellKnownJsonNames →
      poolFind pool typeName = some d →
      depth + 1 ≤ options.maxRecursionDepth →
      convertMessage deserializers pool options st depth typeName (.jobj entries)
        = (st, Except.map (PMessage.mk d.fullName)
            (convertEntries deserializers pool options (patchSt st) (depth + 1) d []
              PFields.pnil entries).2)) := by
  constructor
  · exact convertMessage_fst
  · intro deserializers pool options st depth typeName entries d hdeser hwkt hpool hdepth
    have hlt : ¬ options.maxRecursionDepth < depth + 1 := Nat.not_lt.mpr hdepth
    simp only [convertMessage, hdeser, hlt, if_false, hwkt, hpool]
    cases hrun : convertEntries deserializers pool options (patchSt st)
        (depth + 1) d [] PFields.pnil entries with
    | mk st2 r =>
      simp only [patchSt] at hrun
      cases r <;> simp [restoredFrom_eq, hrun, Except.map]

/-- Witness for C10 at concrete inputs. -/
theorem convert_scalar_patch_scoped_witness :
    convertMessage ([] : List (String × DeserFn)) examplePool {} jsonFormatModuleStart 0
        exampleMessageName (.jobj .onil)
      = (jsonFormatModuleStart,
          Except.map (PMessage.mk exampleMessageDescriptor.fullName)
            ((convertEntries ([] : List (String × DeserFn)) examplePool {}
              (patchSt jsonFormatModuleStart) 1 exampleMessageDescriptor []
              PFields.pnil .onil).2)) :=
  convert_scalar_patch_scoped.2 [] examplePool {} jsonFormatModuleStart 0
    exampleMessageName .onil exampleMessageDescriptor rfl (by decide) (by decide)
    (by decide)

/-! ## Claim C9: the hoisted message_type access -/

theorem fieldsLoop_error_of_exists {E A B : Type} (g : A → Except E (Option B))
    (l : List A) (hx : ∃ x ∈ l, ∃ e, g x = .error e) :
    ∃ e, fieldsLoop g l = .error e := by
  induction l with
  | nil =>
    obtain ⟨x, hmem, _⟩ := hx
    exact absurd hmem (List.not_mem_nil x)
  | cons y rest ih =>
    obtain ⟨x, hmem, e, hge⟩ := hx
    rcases List.mem_cons.mp hmem with h | h
    · subst h
      exact ⟨e, by simp [fieldsLoop, hge]⟩
    · cases hgy : g y with
      | error e2 => exact ⟨e2, by simp [fieldsLoop, hgy]⟩
      | ok ob =>
        obtain ⟨e3, hrest⟩ := ih ⟨x, h, e, hge⟩
        cases ob with
        | none => exact ⟨e3, by simp [fieldsLoop, hgy, hrest]⟩
        | some b => exact ⟨e3, by simp [fieldsLoop, hgy, hrest]⟩

/-- C9 (amended): because line 272 evaluates `field.message_type.full_name`
before any dispatch, a descriptor whose name is not in the schema map and
that has at least one non message field never yields a schema: the call
raises — AttributeError at the first such field unless an earlier
message-typed field fails first (circular check or its own recursive
derivation). -/
theorem get_spark_schema_nonmessage_field_errors
    (mc : MessageConverter) (pool : List Descriptor) (options : SchemaOptions)
    (fuel : Nat) (descr : Descriptor)
    (hmap : dictGet mc.messageTypeToSparkTypeMap descr.fullName = none)
    (hfield : ∃ f ∈ descr.fields, f.kind.messageTypeName = none) :
    ∃ e, get_spark_schema mc pool options fuel descr = .error e := by
  cases fuel with
  | zero => exact ⟨.outOfFuel, rfl⟩
  | succ fuel =>
    obtain ⟨f, hmem, hnone⟩ := hfield
    obtain ⟨e, he⟩ := fieldsLoop_error_of_exists
      (schemaFieldEntry mc pool options
        (if descr.fullName ∈ ([] : List String) then [] else [descr.fullName])
        (fun sub => getSparkSchemaAux mc pool options fuel sub
          (if descr.fullName ∈ ([] : List String) then [] else [descr.fullName])))
      descr.fields
      ⟨f, hmem, .attributeError, by simp [schemaFieldEntry, hnone]⟩
    refine ⟨e, ?_⟩
    simp only [get_spark_schema, getSparkSchemaAux, hmap]
    simp only [List.not_mem_nil, if_false] at he ⊢
    rw [he]

/-- Witness for the amended C9 at the concrete scenario descriptor. -/
theorem get_spark_schema_nonmessage_field_errors_witness :
    ∃ e, get_spark_schema mkMessageConverter examplePool {} 100 exampleMessageDescriptor
      = .error e :=
  get_spark_schema_nonmessage_field_errors mkMessageConverter examplePool {} 100
    exampleMessageDescriptor (by decide) ⟨exInt32Field, by decide, by decide⟩

/-- Counterexample to C9 as stated: a descriptor outside the schema map
with a non message field where the call raises the circular-definition
ValueError, not AttributeError, because the self referential message field
comes first. -/
theorem get_spark_schema_attributeerror_counterexample :
    get_spark_schema mkMessageConverter cyclePool {} 100 selfRecLateScalarDescriptor
      = .error (.valueErrorCircular selfRecLateScalarName)
    ∧ SchemaErr.valueErrorCircular selfRecLateScalarName ≠ SchemaErr.attributeError
    ∧ dictGet mkMessageConverter.messageTypeToSparkTypeMap selfRecLateScalarName = none
    ∧ (∃ f ∈ selfRecLateScalarDescriptor.fields, f.kind.messageTypeName = none) := by
  refine ⟨by decide, by decide, by decide, ?_⟩
  exact ⟨mkField ("x") 2 .int32K false, by decide, by decide⟩

/-! ## Claim C1: the concrete scenario -/

/-- C1 under the code as written: the encode direction produces exactly the
expected mapping, but `get_spark_schema` on the same message type raises
AttributeError (line 272 evaluates `field.message_type.full_name` on the
int32 field, whose `message_type` is `None`) instead of returning the
record schema the spec describes. -/
theorem concrete_scenario_dict_ok_schema_raises :
    message_to_dict mkMessageConverter examplePool {} exampleMsg = .ok exampleDict
    ∧ get_spark_schema mkMessageConverter examplePool {} 100 exampleMessageDescriptor
        = .error .attributeError := by
  constructor
  · decide
  · decide

/-! ## Claim C2: cycle detection -/

/-- C2 under the code as written.  A self referential type whose fields are
all message typed behaves as the spec says: ValueError on the circular
definition by default, and a schema without the self referential field when
`ignore_circular_definitions` is set.  But as soon as the type also has a
scalar field, derivation dies with AttributeError before the circular logic
can run — under both option settings. -/
theorem cycle_detection_partial :
    get_spark_schema mkMessageConverter cyclePool {} 100 selfRecDescriptor
      = .error (.valueErrorCircular selfRecName)
    ∧ get_spark_schema mkMessageConverter cyclePool { ignoreCircularDefinitions := true } 100
        selfRecDescriptor = .ok (.structType .fnil)
    ∧ get_spark_schema mkMessageConverter cyclePool {} 100 selfRecMixedDescriptor
        = .error .attributeError
    ∧ get_spark_schema mkMessageConverter cyclePool { ignoreCircularDefinitions := true } 100
        selfRecMixedDescriptor = .error .attributeError := by
  refine ⟨by decide, by decide, by decide, by decide⟩

/-! ## Claim C3: override precedence -/

/-- C3 under the code as written.  Registering a serializer makes the
top-level derivation of the registered type return the declared type, and
the declared type supersedes structural recursion in a message whose fields
are all message typed.  But a message containing the registered type next
to a scalar field raises AttributeError, and after unregistering, the
structural re-derivation of the type itself (one string field) raises
AttributeError as well; only the well-known-type fallback path (timestamp)
behaves as specified. -/
theorem override_precedence_partial :
    get_spark_schema (register_serializer mkMessageConverter decimalMessageName
        decimalSerializer .longType) overridePool {} 100 decimalMessageDescriptor
      = .ok .longType
    ∧ get_spark_schema (register_serializer mkMessageConverter decimalMessageName
        decimalSerializer .longType) overridePool {} 100 containerMsgOnlyDescriptor
      = .ok (.structType (.fcons ("dec") .longType true .fnil))
    ∧ get_spark_schema (register_serializer mkMessageConverter decimalMessageName
        decimalSerializer .longType) overridePool {} 100 containerDescriptor
      = .error .attributeError
    ∧ get_spark_schema (unregister_serializer (register_serializer mkMessageConverter
        decimalMessageName decimalSerializer .longType) decimalMessageName) overridePool {}
        100 decimalMessageDescriptor
      = .error .attributeError
    ∧ get_spark_schema (unregister_timestamp_serializer mkMessageConverter) examplePool {}
        100 timestampDescriptor
      = .ok .stringType := by
  refine ⟨by decide, by decide, by decide, by decide, by decide⟩

/-! ## Claim C8: sibling branches of the seen set -/

/-- C8 under the code as written.  The copy-on-recurse threading of the
seen set indeed never lets sibling branches flag each other (second
conjunct: two sibling fields of the same fieldless type both derive), but
the claim as stated fails: when B carries any scalar field, deriving A dies
with AttributeError inside B. -/
theorem sibling_branches_partial :
    get_spark_schema mkMessageConverter siblingPool {} 100 siblingADescriptor
      = .error .attributeError
    ∧ get_spark_schema mkMessageConverter siblingPool {} 100 siblingAEmptyDescriptor
      = .ok (.structType (.fcons ("b1") (.structType .fnil) true
          (.fcons ("b2") (.structType .fnil) true .fnil))) := by
  exact ⟨by decide, by decide⟩

/-! ## Step lemmas for the parser -/

theorem convertMessage_custom (deserializers : List (String × DeserFn))
    (pool : List Descriptor) (options : ParseOptions) (st : JsonFormatModule)
    (depth : Nat) (typeName : String) (value : JValue) (deser : DeserFn)
    (h : dictGet deserializers typeName = some deser) :
    convertMessage deserializers pool options st depth typeName value
      = (st, deser value) := by
  cases value <;> simp [convertMessage, h]

theorem convertMessage_nocustom_run (deserializers : List (String × DeserFn))
    (pool : List Descriptor) (options : ParseOptions) (st : JsonFormatModule)
    (depth : Nat) (typeName : String) (entries : JObj) (d : Descriptor)
    (hdeser : dictGet deserializers typeName = none)
    (hwkt : typeName ∉ wellKnownJsonNames)
    (hpool : poolFind pool typeName = some d)
    (hdepth : depth + 1 ≤ options.maxRecursionDepth) :
    convertMessage deserializers pool options st depth typeName (.jobj entries)
      = (st, Except.map (PMessage.mk d.fullName)
          (convertEntries deserializers pool options (patchSt st) (depth + 1) d []
            PFields.pnil entries).2) := by
  have hlt : ¬ options.maxRecursionDepth < depth + 1 := Nat.not_lt.mpr hdepth
  simp only [convertMessage, hdeser, hlt, if_false, hwkt, hpool]
  cases hrun : convertEntries deserializers pool options (patchSt st)
      (depth + 1) d [] PFields.pnil entries with
  | mk st2 r =>
    simp only [patchSt] at hrun
    cases r <;> simp [restoredFrom_eq, hrun, Except.map]

theorem convertEntries_skip_unknown (deserializers : List (String × DeserFn))
    (pool : List Descriptor) (options : ParseOptions) (st : JsonFormatModule)
    (depth : Nat) (d : Descriptor) (names : List String) (acc : PFields)
    (name : String) (v : JValue) (rest : JObj)
    (hfind : findField d name = none)
    (hign : options.ignoreUnknownFields = true) :
    convertEntries deserializers pool options st depth d names acc (.ocons name v rest)
      = convertEntries deserializers pool options st depth d names acc rest := by
  simp [convertEntries, hfind, hign]

theorem convertEntries_skip_null (deserializers : List (String × DeserFn))
    (pool : List Descriptor) (options : ParseOptions) (st : JsonFormatModule)
    (depth : Nat) (d : Descriptor) (names : List String) (acc : PFields)
    (name : String) (rest : JObj) (fd : FieldDescriptor)
    (hfind : findField d name = some fd)
    (hdup : name ∉ names) :
    convertEntries deserializers pool options st depth d names acc (.ocons name .jnull rest)
      = convertEntries deserializers pool options st depth d (name :: names) acc rest := by
  simp [convertEntries, hfind, hdup]

theorem convertEntries_scalar (deserializers : List (String × DeserFn))
    (pool : List Descriptor) (options : ParseOptions) (st : JsonFormatModule)
    (depth : Nat) (d : Descriptor) (names : List String) (acc : PFields)
    (name : String) (v : JValue) (rest : JObj) (fd : FieldDescriptor) (sv : PValue)
    (hfind : findField d name = some fd)
    (hdup : name ∉ names)
    (hnn : jvalueNotNull v = true)
    (hrep : fd.isRepeated = false)
    (hmsg : fd.kind.cppType ≠ CppType.cppMessage)
    (hconv : st.convertScalarFieldValue v fd = .ok sv)
    (hfits : scalarFits fd.kind sv = true) :
    convertEntries deserializers pool options st depth d names acc (.ocons name v rest)
      = convertEntries deserializers pool options st depth d (name :: names)
          (storeScalar acc fd sv) rest := by
  cases v <;> simp_all [convertEntries, jvalueNotNull]

theorem convertEntries_single_message (deserializers : List (String × DeserFn))
    (pool : List Descriptor) (options : ParseOptions) (st st2 : JsonFormatModule)
    (depth : Nat) (d : Descriptor) (names : List String) (acc : PFields)
    (name : String) (v : JValue) (rest : JObj) (fd : FieldDescriptor)
    (subName : String) (sub : PMessage)
    (hfind : findField d name = some fd)
    (hdup : name ∉ names)
    (hnn : jvalueNotNull v = true)
    (hrep : fd.isRepeated = false)
    (hmsg : fd.kind.cppType = CppType.cppMessage)
    (hmtn : fd.kind.messageTypeName = some subName)
    (hconv : convertMessage deserializers pool options st depth subName v = (st2, .ok sub)) :
    convertEntries deserializers pool options st depth d names acc (.ocons name v rest)
      = convertEntries deserializers pool options st2 depth d (name :: names)
          (setFieldSorted acc fd (.single (.pmsg sub))) rest := by
  cases v <;> simp_all [convertEntries, jvalueNotNull]

theorem convertEntries_repeated_message (deserializers : List (String × DeserFn))
    (pool : List Descriptor) (options : ParseOptions) (st st2 : JsonFormatModule)
    (depth : Nat) (d : Descriptor) (names : List String) (acc : PFields)
    (name : String) (v : JValue) (rest : JObj) (fd : FieldDescriptor)
    (subName : String) (vs : PList)
    (hfind : findField d name = some fd)
    (hdup : name ∉ names)
    (hnn : jvalueNotNull v = true)
    (hrep : fd.isRepeated = true)
    (hmsg : fd.kind.cppType = CppType.cppMessage)
    (hmtn : fd.kind.messageTypeName = some subName)
    (hconv : convertRepeatedMessageField deserializers pool options st depth subName v
      = (st2, .ok vs)) :
    convertEntries deserializers pool options st depth d names acc (.ocons name v rest)
      = convertEntries deserializers pool options st2 depth d (name :: names)
          (storeRepeated acc fd vs) rest := by
  cases v <;> simp_all [convertEntries, jvalueNotNull]

theorem convertEntries_repeated_scalar (deserializers : List (String × DeserFn))
    (pool : List Descriptor) (options : ParseOptions) (st : JsonFormatModule)
    (depth : Nat) (d : Descriptor) (names : List String) (acc : PFields)
    (name : String) (v : JValue) (rest : JObj) (fd : FieldDescriptor) (vs : PList)
    (hfind : findField d name = some fd)
    (hdup : name ∉ names)
    (hnn : jvalueNotNull v = true)
    (hrep : fd.isRepeated = true)
    (hmsg : fd.kind.cppType ≠ CppType.cppMessage)
    (hconv : convertRepeatedScalarsValue st.convertScalarFieldValue fd v = .ok vs) :
    convertEntries deserializers pool options st depth d names acc (.ocons name v rest)
      = convertEntries deserializers pool options st depth d (name :: names)
          (storeRepeated acc fd vs) rest := by
  cases v <;> simp_all [convertEntries, jvalueNotNull]

/-! ## Claim C4: byte-field fidelity -/

/-- C4: the encode direction hands byte field values through unchanged
(raw bytes, never a base64 text), and the decode direction accepts raw byte
sequences — mutable or not — and stores the identical immutable bytes: at
the patched scalar conversion, and end to end through `parse_dict` for a
nonempty byte string (an empty one is the proto3 default and leaves the
field unpopulated). -/
theorem byte_field_fidelity :
    (∀ (serializers : List (String × SerFn)) (pool : List Descriptor)
        (options : PrintOptions) (fd : FieldDescriptor) (b : List Nat),
      fd.kind = .bytesK →
      fieldToJsonObject serializers pool options fd (.pbytes b) = .ok (.jbytes b false))
    ∧ (∀ (fn : JValue → FieldDescriptor → Except PErr PValue) (fd : FieldDescriptor)
        (b : List Nat) (mu : Bool),
      fd.kind = .bytesK →
      handle_bytes fn (.jbytes b mu) fd = .ok (.pbytes b))
    ∧ (∀ b : List Nat, b ≠ [] →
      parse_dict mkMessageConverter valuePool {}
        (.jobj (.ocons ("data") (.jbytes b true) .onil)) bytesMessageName
        = .ok (bytesMsg b)) := by
  refine ⟨?_, ?_, ?_⟩
  · intro serializers pool options fd b hk
    simp [fieldToJsonObject, scalarFieldToJsonObject, hk, FieldKind.cppType,
      FieldKind.isTypeBytes]
  · intro fn fd b mu hk
    simp [handle_bytes, hk, FieldKind.cppType, FieldKind.isTypeBytes]
  · intro b hb
    cases b with
    | nil => exact absurd rfl hb
    | cons x xs => rfl

/-- Witness for C4 at concrete inputs. -/
theorem byte_field_fidelity_witness :
    fieldToJsonObject ([] : List (String × SerFn)) valuePool {} bmDataField
        (.pbytes (strBytes ("abc"))) = .ok (.jbytes (strBytes ("abc")) false)
    ∧ handle_bytes baseConvertScalarFieldValue (.jbytes (strBytes ("abc")) true) bmDataField
        = .ok (.pbytes (strBytes ("abc")))
    ∧ parse_dict mkMessageConverter valuePool {}
        (.jobj (.ocons ("data") (.jbytes (strBytes ("abc")) true) .onil)) bytesMessageName
        = .ok (bytesMsg (strBytes ("abc"))) :=
  ⟨byte_field_fidelity.1 [] valuePool {} bmDataField (strBytes ("abc")) rfl,
   byte_field_fidelity.2.1 baseConvertScalarFieldValue bmDataField (strBytes ("abc")) true rfl,
   byte_field_fidelity.2.2 (strBytes ("abc")) (by decide)⟩

/-! ## Claim C5: 64 bit integer fidelity -/

/-- C5: for int64 and uint64 fields the overridden printer returns the
value as a native integer — also beyond 32 bit range — never a decimal
string, and encode followed by decode restores the same integer: for an
int64 field at every in-range value beyond 32 bit in either direction, and
for a uint64 field at every in-range value beyond 32 bit. -/
theorem int64_fidelity :
    (∀ (serializers : List (String × SerFn)) (pool : List Descriptor)
        (options : PrintOptions) (fd : FieldDescriptor) (i : Int),
      fd.kind = .int64K ∨ fd.kind = .uint64K →
      (2 ^ 31 ≤ i ∨ i < -(2 ^ 31)) →
      fieldToJsonObject serializers pool options fd (.pint i) = .ok (.jint i))
    ∧ (∀ i : Int, (2 ^ 31 ≤ i ∨ i < -(2 ^ 31)) → -(2 ^ 63) ≤ i → i < 2 ^ 63 →
      message_to_dict mkMessageConverter valuePool {} (int64Msg i)
        = .ok (.jobj (.ocons ("x") (.jint i) .onil))
      ∧ parse_dict mkMessageConverter valuePool {} (.jobj (.ocons ("x") (.jint i) .onil))
          int64MessageName = .ok (int64Msg i))
    ∧ (∀ i : Int, 2 ^ 31 ≤ i → i < 2 ^ 64 →
      message_to_dict mkMessageConverter uint64Pool {} (uint64Msg i)
        = .ok (.jobj (.ocons ("x") (.jint i) .onil))
      ∧ parse_dict mkMessageConverter uint64Pool {} (.jobj (.ocons ("x") (.jint i) .onil))
          uint64MessageName = .ok (uint64Msg i)) := by
  refine ⟨?_, ?_, ?_⟩
  · intro serializers pool options fd i hk h32
    rcases hk with hk | hk <;>
      simp [fieldToJsonObject, scalarFieldToJsonObject, hk, FieldKind.cppType,
        FieldKind.isTypeBytes]
  · intro i h32 hlo hhi
    constructor
    · rfl
    · have hfits : scalarFits i64Field.kind (.pint i) = true := by
        show scalarFits .int64K (.pint i) = true
        simp only [scalarFits, Bool.and_eq_true, decide_eq_true_eq]
        omega
      have hdef : isDefaultScalar (.pint i) = false := by
        simp only [isDefaultScalar, beq_eq_false_iff_ne, ne_eq]
        omega
      have hconv : (patchSt jsonFormatModuleStart).convertScalarFieldValue (.jint i) i64Field
          = .ok (.pint i) := rfl
      have hstep := convertEntries_scalar mkMessageConverter.customDeserializers valuePool {}
        (patchSt jsonFormatModuleStart) 1 int64MessageDescriptor [] .pnil ("x") (.jint i)
        .onil i64Field (.pint i) rfl (by simp) rfl rfl (by decide) hconv hfits
      have hrun := convertMessage_nocustom_run mkMessageConverter.customDeserializers
        valuePool {} jsonFormatModuleStart 0 int64MessageName
        (.ocons ("x") (.jint i) .onil) int64MessageDescriptor rfl (by decide) rfl
        (by decide)
      show (convertMessage mkMessageConverter.customDeserializers valuePool {}
        jsonFormatModuleStart 0 int64MessageName (.jobj (.ocons ("x") (.jint i) .onil))).2
        = .ok (int64Msg i)
      rw [hrun]
      simp only [hstep]
      simp [convertEntries, storeScalar, hdef, setFieldSorted, int64Msg, pfieldsOfList,
        int64MessageDescriptor, Except.map]
  · intro i h32 hhi
    constructor
    · rfl
    · have hfits : scalarFits u64Field.kind (.pint i) = true := by
        show scalarFits .uint64K (.pint i) = true
        simp only [scalarFits, Bool.and_eq_true, decide_eq_true_eq]
        omega
      have hdef : isDefaultScalar (.pint i) = false := by
        simp only [isDefaultScalar, beq_eq_false_iff_ne, ne_eq]
        omega
      have hconv : (patchSt jsonFormatModuleStart).convertScalarFieldValue (.jint i) u64Field
          = .ok (.pint i) := rfl
      have hstep := convertEntries_scalar mkMessageConverter.customDeserializers uint64Pool
        {} (patchSt jsonFormatModuleStart) 1 uint64MessageDescriptor [] .pnil ("x")
        (.jint i) .onil u64Field (.pint i) rfl (by simp) rfl rfl (by decide) hconv hfits
      have hrun := convertMessage_nocustom_run mkMessageConverter.customDeserializers
        uint64Pool {} jsonFormatModuleStart 0 uint64MessageName
        (.ocons ("x") (.jint i) .onil) uint64MessageDescriptor rfl (by decide) rfl
        (by decide)
      show (convertMessage mkMessageConverter.customDeserializers uint64Pool {}
        jsonFormatModuleStart 0 uint64MessageName (.jobj (.ocons ("x") (.jint i) .onil))).2
        = .ok (uint64Msg i)
      rw [hrun]
      simp only [hstep]
      simp [convertEntries, storeScalar, hdef, setFieldSorted, uint64Msg, pfieldsOfList,
        uint64MessageDescriptor, Except.map]

/-- Witness for C5: a negative int64 beyond 32 bit range and a uint64
beyond int64 range both round trip. -/
theorem int64_fidelity_witness :
    (message_to_dict mkMessageConverter valuePool {} (int64Msg (-(2 ^ 40)))
      = .ok (.jobj (.ocons ("x") (.jint (-(2 ^ 40))) .onil))
    ∧ parse_dict mkMessageConverter valuePool {}
        (.jobj (.ocons ("x") (.jint (-(2 ^ 40))) .onil)) int64MessageName
      = .ok (int64Msg (-(2 ^ 40))))
    ∧ (message_to_dict mkMessageConverter uint64Pool {} (uint64Msg (2 ^ 63))
      = .ok (.jobj (.ocons ("x") (.jint (2 ^ 63)) .onil))
    ∧ parse_dict mkMessageConverter uint64Pool {}
        (.jobj (.ocons ("x") (.jint (2 ^ 63)) .onil)) uint64MessageName
      = .ok (uint64Msg (2 ^ 63))) :=
  ⟨int64_fidelity.2.1 (-(2 ^ 40)) (by norm_num) (by norm_num) (by norm_num),
   int64_fidelity.2.2 (2 ^ 63) (by norm_num) (by norm_num)⟩

/-! ## Structural helper lemmas for the round trip -/

theorem jobj_append_onil : ∀ (o : JObj), JObj.append o .onil = o
  | .onil => rfl
  | .ocons k v rest => by simp [JObj.append, jobj_append_onil rest]

theorem jobj_keys_append : ∀ (a b : JObj),
    JObj.keys (JObj.append a b) = JObj.keys a ++ JObj.keys b
  | .onil, b => by simp [JObj.append, JObj.keys]
  | .ocons k v rest, b => by simp [JObj.append, JObj.keys, jobj_keys_append rest b]

theorem poolFind_fullName (pool : List Descriptor) (tn : String) (d : Descriptor)
    (h : poolFind pool tn = some d) : d.fullName = tn := by
  induction pool with
  | nil => simp [poolFind] at h
  | cons d0 rest ih =>
    by_cases h0 : d0.fullName = tn
    · simp only [poolFind, if_pos h0] at h
      injection h with h
      rw [← h]
      exact h0
    · simp only [poolFind, if_neg h0] at h
      exact ih h

theorem poolFind_mem (pool : List Descriptor) (tn : String) (d : Descriptor)
    (h : poolFind pool tn = some d) : d ∈ pool := by
  induction pool with
  | nil => simp [poolFind] at h
  | cons d0 rest ih =>
    by_cases h0 : d0.fullName = tn
    · simp only [poolFind, if_pos h0] at h
      injection h with h
      rw [← h]
      exact List.mem_cons_self _ _
    · simp only [poolFind, if_neg h0] at h
      exact List.mem_cons_of_mem _ (ih h)

theorem dictGet_eq_none_of_not_mem_keys {α : Type} (d : List (String × α)) (k : String)
    (h : k ∉ d.map Prod.fst) : dictGet d k = none := by
  induction d with
  | nil => rfl
  | cons hd rest ih =>
    obtain ⟨k0, v0⟩ := hd
    simp only [List.map_cons, List.mem_cons] at h
    push_neg at h
    simp only [dictGet, if_neg (Ne.symm h.1)]
    exact ih h.2

theorem dictGet_isSome_of_mem_keys {α : Type} (d : List (String × α)) (k : String)
    (h : k ∈ d.map Prod.fst) : (dictGet d k).isSome = true := by
  induction d with
  | nil => simp at h
  | cons hd rest ih =>
    obtain ⟨k0, v0⟩ := hd
    by_cases h0 : k0 = k
    · simp [dictGet, h0]
    · simp only [List.map_cons, List.mem_cons] at h
      rcases h with h | h
      · exact absurd h.symm h0
      · simp only [dictGet, if_neg h0]
        exact ih h

theorem lookupEnumByNumber_num (values : List (String × Int)) (n : Int)
    (e : String × Int) (h : lookupEnumByNumber values n = some e) : e.2 = n := by
  induction values with
  | nil => simp [lookupEnumByNumber] at h
  | cons hd rest ih =>
    obtain ⟨nm0, num0⟩ := hd
    by_cases h0 : num0 = n
    · simp only [lookupEnumByNumber, if_pos h0] at h
      injection h with h
      rw [← h]
      exact h0
    · simp only [lookupEnumByNumber, if_neg h0] at h
      exact ih h

theorem lookupEnumByNumber_mem (values : List (String × Int)) (n : Int)
    (e : String × Int) (h : lookupEnumByNumber values n = some e) : e ∈ values := by
  induction values with
  | nil => simp [lookupEnumByNumber] at h
  | cons hd rest ih =>
    obtain ⟨nm0, num0⟩ := hd
    by_cases h0 : num0 = n
    · simp only [lookupEnumByNumber, if_pos h0] at h
      injection h with h
      rw [← h]
      exact List.mem_cons_self _ _
    · simp only [lookupEnumByNumber, if_neg h0] at h
      exact List.mem_cons_of_mem _ (ih h)

theorem lookupEnumByName_of_byNumber (values : List (String × Int))
    (hnodup : (values.map Prod.fst).Nodup) (n : Int) (e : String × Int)
    (h : lookupEnumByNumber values n = some e) :
    lookupEnumByName values e.1 = some e.2 := by
  induction values with
  | nil => simp [lookupEnumByNumber] at h
  | cons hd rest ih =>
    obtain ⟨nm0, num0⟩ := hd
    simp only [List.map_cons, List.nodup_cons] at hnodup
    by_cases h0 : num0 = n
    · simp only [lookupEnumByNumber, if_pos h0] at h
      injection h with h
      rw [← h]
      simp [lookupEnumByName]
    · simp only [lookupEnumByNumber, if_neg h0] at h
      have hmem : e ∈ rest := lookupEnumByNumber_mem rest n e h
      have hne : nm0 ≠ e.1 := by
        intro hc
        exact hnodup.1 (hc ▸ List.mem_map_of_mem Prod.fst hmem)
      simp only [lookupEnumByName, if_neg (fun hc => hne hc)]
      exact ih hnodup.2 h

theorem pfieldsAppend_pnil_right : ∀ (fs : PFields), pfieldsAppend fs .pnil = fs
  | .pnil => rfl
  | .pcons fd p rest => by simp [pfieldsAppend, pfieldsAppend_pnil_right rest]

theorem pfieldsAppend_cons_right : ∀ (a : PFields) (fd : FieldDescriptor) (p : PPayload)
    (b : PFields),
    pfieldsAppend a (.pcons fd p b)
      = pfieldsAppend (pfieldsAppend a (.pcons fd p .pnil)) b
  | .pnil, fd, p, b => by simp [pfieldsAppend]
  | .pcons g q rest, fd, p, b => by
    simp [pfieldsAppend, pfieldsAppend_cons_right rest fd p b]

theorem pfieldsNumbersLe_mono : ∀ (acc : PFields) (m m' : Nat), m ≤ m' →
    pfieldsNumbersLe acc m = true → pfieldsNumbersLe acc m' = true
  | .pnil, _, _, _, _ => rfl
  | .pcons fd p rest, m, m', h, hle => by
    simp only [pfieldsNumbersLe, Bool.and_eq_true, decide_eq_true_eq] at hle ⊢
    exact ⟨Nat.le_trans hle.1 h, pfieldsNumbersLe_mono rest m m' h hle.2⟩

theorem pfieldsNumbersLe_append : ∀ (a b : PFields) (m : Nat),
    pfieldsNumbersLe a m = true → pfieldsNumbersLe b m = true →
    pfieldsNumbersLe (pfieldsAppend a b) m = true
  | .pnil, b, m, _, hb => by simpa [pfieldsAppend] using hb
  | .pcons fd p rest, b, m, ha, hb => by
    simp only [pfieldsNumbersLe, Bool.and_eq_true, decide_eq_true_eq] at ha
    simp only [pfieldsAppend, pfieldsNumbersLe, Bool.and_eq_true, decide_eq_true_eq]
    exact ⟨ha.1, pfieldsNumbersLe_append rest b m ha.2 hb⟩

theorem setFieldSorted_append : ∀ (acc : PFields) (fd : FieldDescriptor) (p : PPayload)
    (m : Nat), pfieldsNumbersLe acc m = true → m < fd.number →
    setFieldSorted acc fd p = pfieldsAppend acc (.pcons fd p .pnil)
  | .pnil, fd, p, m, _, _ => rfl
  | .pcons g q rest, fd, p, m, hacc, hlt => by
    simp only [pfieldsNumbersLe, Bool.and_eq_true, decide_eq_true_eq] at hacc
    have hgt : g.number < fd.number := Nat.lt_of_le_of_lt hacc.1 hlt
    simp only [setFieldSorted, if_neg (Nat.lt_asymm hgt),
      if_neg (by omega : ¬ fd.number = g.number), pfieldsAppend]
    rw [setFieldSorted_append rest fd p m hacc.2 hlt]

/-! ## Patch behavior lemmas -/

theorem base_nonBytesLikeBase : nonBytesLikeBase baseConvertScalarFieldValue :=
  fun _ _ _ => rfl

theorem handle_bytes_cond_true (fn : JValue → FieldDescriptor → Except PErr PValue)
    (v : JValue) (fd : FieldDescriptor)
    (h : fd.kind.cppType = CppType.cppString ∧ fd.kind.isTypeBytes = true) :
    handle_bytes fn v fd
      = match v with
        | .jbytes data _ => .ok (.pbytes data)
        | _ => .error .badValue := by
  simp [handle_bytes, h.1, h.2]

theorem handle_bytes_cond_false (fn : JValue → FieldDescriptor → Except PErr PValue)
    (v : JValue) (fd : FieldDescriptor)
    (h : ¬(fd.kind.cppType = CppType.cppString ∧ fd.kind.isTypeBytes = true)) :
    handle_bytes fn v fd = fn v fd := by
  have hb : (decide (fd.kind.cppType = CppType.cppString) && fd.kind.isTypeBytes) = false := by
    rcases Decidable.em (fd.kind.cppType = CppType.cppString) with hc | hc
    · have hi : fd.kind.isTypeBytes = false := by
        cases hi : fd.kind.isTypeBytes
        · rfl
        · exact absurd ⟨hc, hi⟩ h
      simp [hc, hi]
    · simp [hc]
  simp [handle_bytes, hb]

theorem patchedLike_of_nonBytes (fn : JValue → FieldDescriptor → Except PErr PValue)
    (h : nonBytesLikeBase fn) : patchedLikeBase (handle_bytes fn) := by
  intro v fd
  by_cases hc : fd.kind.cppType = CppType.cppString ∧ fd.kind.isTypeBytes = true
  · rw [handle_bytes_cond_true fn v fd hc, handle_bytes_cond_true _ v fd hc]
  · rw [handle_bytes_cond_false fn v fd hc, handle_bytes_cond_false _ v fd hc]
    exact h v fd hc

theorem nonBytes_of_patchedLike (fn : JValue → FieldDescriptor → Except PErr PValue)
    (h : patchedLikeBase fn) : nonBytesLikeBase fn := by
  intro v fd hc
  rw [h v fd, handle_bytes_cond_false _ v fd hc]

theorem patchSt_patchedLike (st : JsonFormatModule)
    (h : nonBytesLikeBase st.convertScalarFieldValue) :
    patchedLikeBase (patchSt st).convertScalarFieldValue :=
  patchedLike_of_nonBytes _ h

theorem pair_eq {A B : Type} (p : A × B) (a : A) (b : B)
    (h1 : p.1 = a) (h2 : p.2 = b) : p = (a, b) := by
  cases p
  simp_all

/-! ## Scalar round trip -/

/-- Every scalar value accepted for a field prints to a non-null scalar
json value from which the patched scalar conversion recovers exactly the
original value. -/
theorem scalar_roundtrip (popts : PrintOptions) (fd : FieldDescriptor) (v : PValue)
    (hkind : fieldKindOk fd.kind = true)
    (hmsg : fd.kind.cppType ≠ CppType.cppMessage)
    (hfits : scalarFits fd.kind v = true) :
    ∃ jv, scalarFieldToJsonObject popts fd v = .ok jv ∧ jvalueNotNull jv = true ∧
      handle_bytes baseConvertScalarFieldValue jv fd = .ok v := by
  obtain ⟨nm, cn, num, kind, rep, ho, dep⟩ := fd
  cases kind with
  | int32K =>
    cases v <;> simp_all [scalarFits]
    exact ⟨.jint _, rfl, rfl, rfl⟩
  | int64K =>
    cases v <;> simp_all [scalarFits]
    exact ⟨.jint _, rfl, rfl, rfl⟩
  | uint32K =>
    cases v <;> simp_all [scalarFits]
    exact ⟨.jint _, rfl, rfl, rfl⟩
  | uint64K =>
    cases v <;> simp_all [scalarFits]
    exact ⟨.jint _, rfl, rfl, rfl⟩
  | boolK =>
    cases v <;> simp_all [scalarFits]
    exact ⟨.jbool _, rfl, rfl, rfl⟩
  | stringK =>
    cases v <;> simp_all [scalarFits]
    exact ⟨.jstr _, rfl, rfl, rfl⟩
  | bytesK =>
    cases v <;> simp_all [scalarFits]
    exact ⟨.jbytes _ false, rfl, rfl, rfl⟩
  | messageK tn => exact absurd rfl hmsg
  | enumK values =>
    have hnodup : (values.map Prod.fst).Nodup := by
      simpa [fieldKindOk] using hkind
    cases v with
    | pint i => simp [scalarFits] at hfits
    | pstr s2 => simp [scalarFits] at hfits
    | pbytes b => simp [scalarFits] at hfits
    | pbool b => simp [scalarFits] at hfits
    | pmsg m2 => simp [scalarFits] at hfits
    | penum n =>
      have hcond : ¬((FieldKind.enumK values).cppType = CppType.cppString
          ∧ (FieldKind.enumK values).isTypeBytes = true) := by
        intro hc
        exact CppType.noConfusion hc.1
      by_cases hui : popts.useIntegersForEnums
      · refine ⟨.jint n, ?_, rfl, ?_⟩
        · simp [scalarFieldToJsonObject, hui, FieldKind.cppType, FieldKind.isTypeBytes]
        · rw [handle_bytes_cond_false _ _ _ hcond]
          cases he : lookupEnumByNumber values n with
          | none => simp [baseConvertScalarFieldValue, FieldKind.cppType,
              convertEnumValue, he]
          | some e =>
            simp [baseConvertScalarFieldValue, FieldKind.cppType, convertEnumValue, he,
              lookupEnumByNumber_num values n e he]
      · cases he : lookupEnumByNumber values n with
        | some e =>
          refine ⟨.jstr e.1, ?_, rfl, ?_⟩
          · simp [scalarFieldToJsonObject, hui, he, FieldKind.cppType, FieldKind.isTypeBytes]
          · rw [handle_bytes_cond_false _ _ _ hcond]
            simp [baseConvertScalarFieldValue, FieldKind.cppType, convertEnumValue,
              lookupEnumByName_of_byNumber values hnodup n e he,
              lookupEnumByNumber_num values n e he]
        | none =>
          refine ⟨.jint n, ?_, rfl, ?_⟩
          · simp [scalarFieldToJsonObject, hui, he, FieldKind.cppType, FieldKind.isTypeBytes]
          · rw [handle_bytes_cond_false _ _ _ hcond]
            simp [baseConvertScalarFieldValue, FieldKind.cppType, convertEnumValue, he]

/-- The defaults the printer emits for a non message kind: they exist, they
pass the assignment check, and assigning them leaves the field
unpopulated. -/
theorem default_scalar_ok (k : FieldKind) (hk : k.cppType ≠ CppType.cppMessage) :
    ∃ dv, fieldDefaultValue k = some dv ∧ scalarFits k dv = true
      ∧ isDefaultScalar dv = true := by
  cases k with
  | int32K => exact ⟨.pint 0, rfl, by decide, by decide⟩
  | int64K => exact ⟨.pint 0, rfl, by decide, by decide⟩
  | uint32K => exact ⟨.pint 0, rfl, by decide, by decide⟩
  | uint64K => exact ⟨.pint 0, rfl, by decide, by decide⟩
  | boolK => exact ⟨.pbool false, rfl, by decide, by decide⟩
  | enumK values => exact ⟨.penum 0, rfl, rfl, rfl⟩
  | stringK => exact ⟨.pstr ("" : String), rfl, by decide, by decide⟩
  | bytesK => exact ⟨.pbytes [], rfl, by decide, by decide⟩
  | messageK tn => exact absurd rfl hk

/-- For a non message kind, well-formedness of a value is the assignment
check, and the value is never a message. -/
theorem wfValue_nonmsg (pool : List Descriptor) (customNames : List String)
    (P : String → PMessage → Bool) (kind : FieldKind) (v : PValue)
    (hmsg : kind.cppType ≠ CppType.cppMessage)
    (h : wfValue pool customNames P kind v = true) :
    scalarFits kind v = true ∧ ∀ sub, v ≠ .pmsg sub := by
  have hkm : ∀ tn, kind ≠ .messageK tn := by
    intro tn hc
    rw [hc] at hmsg
    exact absurd rfl hmsg
  cases v with
  | pmsg sub =>
    exfalso
    cases kind <;> simp [wfValue] at h
    exact absurd rfl (hkm _)
  | pint i => cases kind <;> simp_all [wfValue]
  | pstr s => cases kind <;> simp_all [wfValue]
  | pbytes b => cases kind <;> simp_all [wfValue]
  | pbool b => cases kind <;> simp_all [wfValue]
  | penum n => cases kind <;> simp_all [wfValue]

theorem fieldToJsonObject_scalar (sers : List (String × SerFn)) (pool : List Descriptor)
    (popts : PrintOptions) (fd : FieldDescriptor) (v : PValue)
    (hmsg : fd.kind.cppType ≠ CppType.cppMessage)
    (hv : ∀ sub, v ≠ .pmsg sub) :
    fieldToJsonObject sers pool popts fd v = scalarFieldToJsonObject popts fd v := by
  cases v with
  | pmsg sub => exact absurd rfl (hv sub)
  | pint i => simp [fieldToJsonObject, hmsg]
  | pstr s => simp [fieldToJsonObject, hmsg]
  | pbytes b => simp [fieldToJsonObject, hmsg]
  | pbool b => simp [fieldToJsonObject, hmsg]
  | penum n => simp [fieldToJsonObject, hmsg]

theorem convertRepeatedScalars_cons (fn : JValue → FieldDescriptor → Except PErr PValue)
    (fd : FieldDescriptor) (item : JValue) (rest : JArr) (v : PValue)
    (hnn : jvalueNotNull item = true)
    (hcv : fn item fd = .ok v) (hfits : scalarFits fd.kind v = true) :
    convertRepeatedScalars fn fd (.acons item rest)
      = match convertRepeatedScalars fn fd rest with
        | .ok vs => .ok (.lcons v vs)
        | .error e => .error e := by
  cases item <;> simp_all [convertRepeatedScalars, jvalueNotNull]

/-- Repeated scalar fields round trip: printing the elements and parsing
them back with any patched-behaving scalar function restores the list. -/
theorem repeated_scalars_roundtrip (sers : List (String × SerFn))
    (pool : List Descriptor) (customNames : List String)
    (P : String → PMessage → Bool) (popts : PrintOptions) (fd : FieldDescriptor)
    (hkind : fieldKindOk fd.kind = true)
    (hmsg : fd.kind.cppType ≠ CppType.cppMessage) :
    ∀ vs : PList, wfList pool customNames P fd.kind vs = true →
    ∃ items, printRepeatedField sers pool popts fd vs = .ok items ∧
      ∀ fn, patchedLikeBase fn → convertRepeatedScalars fn fd items = .ok vs
  | .lnil, _ => ⟨.anil, rfl, fun fn _ => rfl⟩
  | .lcons v rest, hwf => by
    simp only [wfList, Bool.and_eq_true] at hwf
    obtain ⟨hfits, hnotmsg⟩ := wfValue_nonmsg pool customNames P fd.kind v hmsg hwf.1
    obtain ⟨jv, hjv, hnn, hback⟩ := scalar_roundtrip popts fd v hkind hmsg hfits
    obtain ⟨items, hitems, hparse⟩ :=
      repeated_scalars_roundtrip sers pool customNames P popts fd hkind hmsg rest hwf.2
    refine ⟨.acons jv items, ?_, ?_⟩
    · simp [printRepeatedField,
        fieldToJsonObject_scalar sers pool popts fd v hmsg hnotmsg, hjv, hitems]
    · intro fn hfn
      rw [convertRepeatedScalars_cons fn fd jv items v hnn (by rw [hfn]; exact hback) hfits]
      rw [hparse fn hfn]

/-! ## Field lookup resolution -/

theorem findFieldByCamelcase_eq (fields : List FieldDescriptor)
    (hnodup : (fields.map fun f => f.camelcaseName).Nodup) (fd : FieldDescriptor)
    (hmem : fd ∈ fields) : findFieldByCamelcase fields fd.camelcaseName = some fd := by
  induction fields with
  | nil => simp at hmem
  | cons f rest ih =>
    simp only [List.map_cons, List.nodup_cons] at hnodup
    by_cases hc : f.camelcaseName = fd.camelcaseName
    · rcases List.mem_cons.mp hmem with h | h
      · rw [h]
        simp [findFieldByCamelcase]
      · exfalso
        exact hnodup.1 (hc ▸ List.mem_map_of_mem (fun g => g.camelcaseName) h)
    · have hmem2 : fd ∈ rest := by
        rcases List.mem_cons.mp hmem with h | h
        · exact absurd (h ▸ rfl) hc
        · exact h
      simp only [findFieldByCamelcase, if_neg hc]
      exact ih hnodup.2 hmem2

theorem findFieldByName_eq (fields : List FieldDescriptor)
    (hnodup : (fields.map fun f => f.name).Nodup) (fd : FieldDescriptor)
    (hmem : fd ∈ fields) : findFieldByName fields fd.name = some fd := by
  induction fields with
  | nil => simp at hmem
  | cons f rest ih =>
    simp only [List.map_cons, List.nodup_cons] at hnodup
    by_cases hc : f.name = fd.name
    · rcases List.mem_cons.mp hmem with h | h
      · rw [h]
        simp [findFieldByName]
      · exfalso
        exact hnodup.1 (hc ▸ List.mem_map_of_mem (fun g => g.name) h)
    · have hmem2 : fd ∈ rest := by
        rcases List.mem_cons.mp hmem with h | h
        · exact absurd (h ▸ rfl) hc
        · exact h
      simp only [findFieldByName, if_neg hc]
      exact ih hnodup.2 hmem2

theorem findFieldByCamelcase_some (fields : List FieldDescriptor) (key : String)
    (g : FieldDescriptor) (h : findFieldByCamelcase fields key = some g) :
    g ∈ fields ∧ g.camelcaseName = key := by
  induction fields with
  | nil => simp [findFieldByCamelcase] at h
  | cons f rest ih =>
    by_cases hc : f.camelcaseName = key
    · simp only [findFieldByCamelcase, if_pos hc] at h
      injection h with h
      rw [← h]
      exact ⟨List.mem_cons_self _ _, hc⟩
    · simp only [findFieldByCamelcase, if_neg hc] at h
      obtain ⟨h1, h2⟩ := ih h
      exact ⟨List.mem_cons_of_mem _ h1, h2⟩

/-- The key a field is serialized under resolves to that same field. -/
theorem findField_rendered (d : Descriptor) (hok : descriptorOk d = true)
    (fd : FieldDescriptor) (hmem : fd ∈ d.fields) (pres : Bool) :
    findField d (renderedKey pres fd) = some fd := by
  have hnames : fieldNamesOk d.fields = true := by
    simp only [descriptorOk, Bool.and_eq_true] at hok
    exact hok.1
  simp only [fieldNamesOk, Bool.and_eq_true, decide_eq_true_eq] at hnames
  obtain ⟨⟨hcamel, hname⟩, hcross⟩ := hnames
  cases pres with
  | false =>
    rw [show renderedKey false fd = fd.camelcaseName from rfl]
    simp only [findField, findFieldByCamelcase_eq d.fields hcamel fd hmem]
  | true =>
    rw [show renderedKey true fd = fd.name from rfl]
    simp only [findField]
    cases hc : findFieldByCamelcase d.fields fd.name with
    | some g =>
      obtain ⟨hgmem, hgcc⟩ := findFieldByCamelcase_some d.fields fd.name g hc
      have hgfd : g = fd := hcross fd hmem g hgmem hgcc
      rw [hgfd]
    | none =>
      exact findFieldByName_eq d.fields hname fd hmem

/-- Distinct fields of a sane descriptor serialize under distinct keys. -/
theorem renderedKey_inj (d : Descriptor) (hok : descriptorOk d = true) (pres : Bool)
    (f g : FieldDescriptor) (hf : f ∈ d.fields) (hg : g ∈ d.fields) (hne : f ≠ g) :
    renderedKey pres f ≠ renderedKey pres g := by
  have hnames : fieldNamesOk d.fields = true := by
    simp only [descriptorOk, Bool.and_eq_true] at hok
    exact hok.1
  simp only [fieldNamesOk, Bool.and_eq_true, decide_eq_true_eq] at hnames
  obtain ⟨⟨hcamel, hname⟩, _⟩ := hnames
  cases pres with
  | false =>
    rw [show renderedKey false f = f.camelcaseName from rfl,
      show renderedKey false g = g.camelcaseName from rfl]
    intro hc
    exact hne (List.inj_on_of_nodup_map hcamel hf hg hc)
  | true =>
    rw [show renderedKey true f = f.name from rfl,
      show renderedKey true g = g.name from rfl]
    intro hc
    exact hne (List.inj_on_of_nodup_map hname hf hg hc)

/-- Fields at strictly larger numbers serialize under different keys. -/
theorem wfFields_key_not_mem (pool : List Descriptor) (customNames : List String)
    (P : String → PMessage → Bool) (d : Descriptor) (hok : descriptorOk d = true)
    (fd : FieldDescriptor) (hmem : fd ∈ d.fields) (pres : Bool) :
    ∀ (rest : PFields) (n : Nat), fd.number ≤ n →
      wfFields pool customNames P d n rest = true →
      renderedKey pres fd ∉ pfieldsKeys pres rest
  | .pnil, n, _, _ => by simp [pfieldsKeys]
  | .pcons g q rest', n, hle, hwf => by
    simp only [wfFields, Bool.and_eq_true, decide_eq_true_eq] at hwf
    obtain ⟨⟨⟨hgmem, hgt⟩, _⟩, hrest⟩ := hwf
    simp only [pfieldsKeys, List.mem_cons]
    push_neg
    constructor
    · have hne : fd ≠ g := by
        intro hc
        rw [hc] at hle
        omega
      exact renderedKey_inj d hok pres fd g hmem hgmem hne
    · exact wfFields_key_not_mem pool customNames P d hok fd hmem pres rest' g.number
        (by omega) hrest

/-! ## The default entries are parsed as a no-op -/

theorem jobj_append_assoc : ∀ (a b c : JObj),
    JObj.append (JObj.append a b) c = JObj.append a (JObj.append b c)
  | .onil, b, c => rfl
  | .ocons k v rest, b, c => by simp [JObj.append, jobj_append_assoc rest b c]

theorem not_mem_keys_of_hasKey_false (js : JObj) (k : String)
    (h : JObj.hasKey js k = false) : k ∉ JObj.keys js := by
  simpa [JObj.hasKey] using h

/-- Printing the default entries appends only entries that parse back as
no-ops: unknown keys are impossible (each key resolves to its descriptor
field), scalar defaults are dropped by presence, empty lists clear the
field. -/
theorem defaults_noop (desers : List (String × DeserFn)) (pool : List Descriptor)
    (ropts : ParseOptions) (popts : PrintOptions) (d : Descriptor)
    (hok : descriptorOk d = true) :
    ∀ (dfields : List FieldDescriptor) (js : JObj),
    (∀ f ∈ dfields, f ∈ d.fields) →
    ∃ extra, printDefaultEntries popts js dfields = .ok (JObj.append js extra) ∧
      (∀ k ∈ JObj.keys extra, k ∉ JObj.keys js) ∧
      (∀ (st : JsonFormatModule) (depth : Nat) (names : List String) (acc : PFields),
        patchedLikeBase st.convertScalarFieldValue →
        (∀ k ∈ JObj.keys extra, k ∉ names) →
        convertEntries desers pool ropts st depth d names acc extra = (st, .ok acc)) := by
  intro dfields
  induction dfields with
  | nil =>
    intro js _
    refine ⟨.onil, ?_, by simp [JObj.keys], fun st depth names acc _ _ => rfl⟩
    simp [printDefaultEntries, jobj_append_onil]
  | cons fd rest ih =>
    intro js hsub
    have hfdmem : fd ∈ d.fields := hsub fd (List.mem_cons_self _ _)
    have hrestsub : ∀ f ∈ rest, f ∈ d.fields :=
      fun f hf => hsub f (List.mem_cons_of_mem _ hf)
    by_cases hsm : fd.isRepeated = false ∧ fd.kind.cppType = CppType.cppMessage
    · -- singular message fields are skipped entirely
      have hcond : (!fd.isRepeated && decide (fd.kind.cppType = CppType.cppMessage)) = true := by
        simp [hsm.1, hsm.2]
      obtain ⟨extra, hprint, hkeys, hparse⟩ := ih js hrestsub
      exact ⟨extra, by simpa [printDefaultEntries, hcond] using hprint, hkeys, hparse⟩
    · have hcond : (!fd.isRepeated && decide (fd.kind.cppType = CppType.cppMessage)) = false := by
        rcases Decidable.em (fd.kind.cppType = CppType.cppMessage) with hc | hc
        · cases hr : fd.isRepeated
          · exact absurd ⟨hr, hc⟩ hsm
          · simp [hr]
        · simp [hc]
      set name := renderedKey popts.preservingProtoFieldName fd with hname
      have hnamedef : (if popts.preservingProtoFieldName then fd.name else fd.camelcaseName)
          = name := by
        rw [hname]
        cases hp : popts.preservingProtoFieldName <;> simp [renderedKey, hp]
      by_cases hhas : JObj.hasKey js name = true
      · -- key already serialized: skipped
        obtain ⟨extra, hprint, hkeys, hparse⟩ := ih js hrestsub
        refine ⟨extra, ?_, hkeys, hparse⟩
        simpa [printDefaultEntries, hcond, hnamedef, hhas] using hprint
      · have hhasf : JObj.hasKey js name = false := by
          cases hq : JObj.hasKey js name
          · rfl
          · exact absurd hq hhas
        have hnotjs : name ∉ JObj.keys js := not_mem_keys_of_hasKey_false js name hhasf
        have hfind : findField d name = some fd := findField_rendered d hok fd hfdmem _
        have hnameinjs : ∀ (extra2 : JObj),
            (∀ k ∈ JObj.keys extra2,
              k ∉ JObj.keys (JObj.append js (.ocons name (.jarr .anil) .onil))) →
            ∀ k ∈ JObj.keys extra2, k ≠ name := by
          intro extra2 hkeys2 k hk hc
          have := hkeys2 k hk
          rw [jobj_keys_append] at this
          exact this (hc ▸ List.mem_append_right _ (List.mem_cons_self _ _))
        cases hr : fd.isRepeated with
        | true =>
          -- repeated field: a literal empty list is emitted
          obtain ⟨extra, hprint, hkeys, hparse⟩ :=
            ih (JObj.append js (.ocons name (.jarr .anil) .onil)) hrestsub
          refine ⟨.ocons name (.jarr .anil) extra, ?_, ?_, ?_⟩
          · rw [show printDefaultEntries popts js (fd :: rest)
                = printDefaultEntries popts
                    (JObj.append js (.ocons name (.jarr .anil) .onil)) rest from by
              simp [printDefaultEntries, hcond, hnamedef, hhasf, hr]]
            rw [hprint, jobj_append_assoc]
            rfl
          · intro k hk
            simp only [JObj.keys, List.mem_cons] at hk
            rcases hk with hk | hk
            · rw [hk]
              exact hnotjs
            · have := hkeys k hk
              rw [jobj_keys_append] at this
              intro hc
              exact this (List.mem_append_left _ hc)
          · intro st depth names acc hst hfresh
            have hnm : name ∉ names := hfresh name (by simp [JObj.keys])
            have hfresh' : ∀ k ∈ JObj.keys extra, k ∉ name :: names := by
              intro k hk
              simp only [List.mem_cons]
              push_neg
              exact ⟨hnameinjs extra hkeys k hk,
                hfresh k (by simp only [JObj.keys, List.mem_cons]; exact Or.inr hk)⟩
            have hstep : convertEntries desers pool ropts st depth d names acc
                (.ocons name (.jarr .anil) extra)
                = convertEntries desers pool ropts st depth d (name :: names) acc extra := by
              by_cases hkk : fd.kind.cppType = CppType.cppMessage
              · obtain ⟨tn, htn⟩ : ∃ tn, fd.kind = .messageK tn := by
                  cases hk2 : fd.kind <;> simp [hk2, FieldKind.cppType] at hkk ⊢
                have hmtn : fd.kind.messageTypeName = some tn := by
                  rw [htn]
                  rfl
                rw [convertEntries_repeated_message desers pool ropts st st depth d names
                  acc name (.jarr .anil) extra fd tn .lnil hfind hnm rfl hr hkk hmtn rfl]
                rfl
              · rw [convertEntries_repeated_scalar desers pool ropts st depth d names
                  acc name (.jarr .anil) extra fd .lnil hfind hnm rfl hr hkk rfl]
                rfl
            rw [hstep]
            exact hparse st depth (name :: names) acc hst hfresh'
        | false =>
          -- singular scalar field: its printed default parses back to the
          -- proto3 default, which the assignment drops
          have hmsg : fd.kind.cppType ≠ CppType.cppMessage :=
            fun hc => hsm ⟨hr, hc⟩
          have hkind : fieldKindOk fd.kind = true := by
            simp only [descriptorOk, Bool.and_eq_true, List.all_eq_true] at hok
            exact hok.2 fd hfdmem
          obtain ⟨dv, hdv, hfits, hdef⟩ := default_scalar_ok fd.kind hmsg
          obtain ⟨jv, hjv, hnn, hback⟩ := scalar_roundtrip popts fd dv hkind hmsg hfits
          obtain ⟨extra, hprint, hkeys, hparse⟩ :=
            ih (JObj.append js (.ocons name jv .onil)) hrestsub
          refine ⟨.ocons name jv extra, ?_, ?_, ?_⟩
          · rw [show printDefaultEntries popts js (fd :: rest)
                = printDefaultEntries popts (JObj.append js (.ocons name jv .onil)) rest from by
              simp [printDefaultEntries, hcond, hnamedef, hhasf, hr, hdv, hjv, hmsg]]
            rw [hprint, jobj_append_assoc]
            rfl
          · intro k hk
            simp only [JObj.keys, List.mem_cons] at hk
            rcases hk with hk | hk
            · rw [hk]
              exact hnotjs
            · have := hkeys k hk
              rw [jobj_keys_append] at this
              intro hc
              exact this (List.mem_append_left _ hc)
          · intro st depth names acc hst hfresh
            have hnm : name ∉ names := hfresh name (by simp [JObj.keys])
            have hnamein : ∀ k ∈ JObj.keys extra, k ≠ name := by
              intro k hk hc
              have := hkeys k hk
              rw [jobj_keys_append] at this
              exact this (hc ▸ List.mem_append_right _ (List.mem_cons_self _ _))
            have hfresh' : ∀ k ∈ JObj.keys extra, k ∉ name :: names := by
              intro k hk
              simp only [List.mem_cons]
              push_neg
              exact ⟨hnamein k hk,
                hfresh k (by simp only [JObj.keys, List.mem_cons]; exact Or.inr hk)⟩
            have hconv : st.convertScalarFieldValue jv fd = .ok dv := by
              rw [hst jv fd]
              exact hback
            rw [convertEntries_scalar desers pool ropts st depth d names acc name jv extra
              fd dv hfind hnm hnn hr hmsg hconv hfits]
            rw [show storeScalar acc fd dv = acc from by simp [storeScalar, hdef]]
            exact hparse st depth (name :: names) acc hst hfresh'

/-! ## The message round trip -/

theorem convertRepeatedMessages_cons (desers : List (String × DeserFn))
    (pool : List Descriptor) (ropts : ParseOptions) (st st2 st3 : JsonFormatModule)
    (depth : Nat) (subName : String) (item : JValue) (rest : JArr)
    (sub : PMessage) (vs : PList)
    (hnn : jvalueNotNull item = true)
    (h1 : convertMessage desers pool ropts st depth subName item = (st2, .ok sub))
    (h2 : convertRepeatedMessages desers pool ropts st2 depth subName rest = (st3, .ok vs)) :
    convertRepeatedMessages desers pool ropts st depth subName (.acons item rest)
      = (st3, .ok (.lcons (.pmsg sub) vs)) := by
  cases item <;> simp_all [convertRepeatedMessages, jvalueNotNull]

mutual
/-- A well-formed message prints to a non-null json value that parses back
to the same message from any module state whose scalar conversion behaves
like the unpatched original, leaving the state untouched. -/
theorem roundtrip_msg (sers : List (String × SerFn)) (desers : List (String × DeserFn))
    (pool : List Descriptor) (customNames : List String) (P : String → PMessage → Bool)
    (popts : PrintOptions) (ropts : ParseOptions)
    (hcn : ∀ tn, tn ∈ customNames ↔ (dictGet sers tn).isSome = true)
    (haligned : customsAligned sers desers P)
    (hwfpool : wfPool pool = true) :
    ∀ (m : PMessage), wfMsg pool customNames P m = true →
    ∃ js, messageToJsonObject sers pool popts m = .ok js ∧ jvalueNotNull js = true ∧
      ∀ (st : JsonFormatModule) (depth : Nat),
        nonBytesLikeBase st.convertScalarFieldValue →
        depth + msgDepth customNames m ≤ ropts.maxRecursionDepth →
        convertMessage desers pool ropts st depth (PMessage.typeName m) js = (st, .ok m)
  | .mk tn fields, hwf => by
    by_cases hct : tn ∈ customNames
    · -- custom-serialized type: the registered pair undoes itself
      have hP : P tn (.mk tn fields) = true := by
        simp only [wfMsg, if_pos hct] at hwf
        exact hwf
      obtain ⟨ser, hser⟩ : ∃ ser, dictGet sers tn = some ser := by
        have hs := (hcn tn).mp hct
        cases hq : dictGet sers tn with
        | none => rw [hq] at hs; simp [Option.isSome] at hs
        | some ser => exact ⟨ser, rfl⟩
      obtain ⟨deser, hdeser⟩ : ∃ deser, dictGet desers tn = some deser := by
        have h1 := haligned.1 tn
        rw [hser] at h1
        cases hq : dictGet desers tn with
        | none => rw [hq] at h1; simp [Option.isSome] at h1
        | some deser => exact ⟨deser, rfl⟩
      obtain ⟨hnnv, hundo⟩ := haligned.2 tn ser (.mk tn fields) hser hP rfl
      refine ⟨ser (.mk tn fields), by simp [messageToJsonObject, hser], hnnv, ?_⟩
      intro st depth _ _
      rw [show PMessage.typeName (.mk tn fields) = tn from rfl,
        convertMessage_custom desers pool ropts st depth tn _ deser hdeser,
        hundo deser hdeser]
    · -- regular message over a pool descriptor
      have hsernone : dictGet sers tn = none := by
        cases hq : dictGet sers tn with
        | none => rfl
        | some ser => exact absurd ((hcn tn).mpr (by rw [hq]; rfl)) hct
      have hdesernone : dictGet desers tn = none := by
        have h1 := haligned.1 tn
        rw [hsernone] at h1
        cases hq : dictGet desers tn with
        | none => rfl
        | some deser => rw [hq] at h1; simp [Option.isSome] at h1
      simp only [wfMsg, if_neg hct, Bool.and_eq_true, decide_eq_true_eq] at hwf
      obtain ⟨hwkt, hwfrest⟩ := hwf
      obtain ⟨d, hpool, hwffields⟩ : ∃ d, poolFind pool tn = some d ∧
          wfFields pool customNames P d 0 fields = true := by
        cases hp : poolFind pool tn with
        | none => rw [hp] at hwfrest; exact absurd hwfrest (by simp)
        | some d =>
          rw [hp] at hwfrest
          exact ⟨d, rfl, hwfrest⟩
      have hdmem : d ∈ pool := poolFind_mem pool tn d hpool
      have hok : descriptorOk d = true := by
        simp only [wfPool, Bool.and_eq_true, List.all_eq_true] at hwfpool
        exact hwfpool.2 d hdmem
      have hfull : d.fullName = tn := poolFind_fullName pool tn d hpool
      obtain ⟨js1, hprint1, hkeys1, htrans⟩ :=
        roundtrip_fields sers desers pool customNames P popts ropts hcn haligned hwfpool
          d hok fields 0 hwffields
      have hmd : msgDepth customNames (.mk tn fields)
          = 1 + fieldsDepth customNames fields := by
        simp [msgDepth, hct]
      by_cases hinc : popts.includingDefaultValueFields = true
      · -- defaults appended by the printer parse back as a no-op
        obtain ⟨extra, hdefp, hdkeys, hdparse⟩ :=
          defaults_noop desers pool ropts popts d hok d.fields js1 (fun f hf => hf)
        refine ⟨.jobj (JObj.append js1 extra), ?_, rfl, ?_⟩
        · simp [messageToJsonObject, hsernone, hwkt, hprint1, hinc, hpool, hdefp]
        · intro st depth hst hdep
          rw [hmd] at hdep
          have hdep1 : depth + 1 ≤ ropts.maxRecursionDepth := by omega
          rw [show PMessage.typeName (.mk tn fields) = tn from rfl]
          rw [convertMessage_nocustom_run desers pool ropts st depth tn _ d hdesernone
            hwkt hpool hdep1]
          have hpatched : patchedLikeBase (patchSt st).convertScalarFieldValue :=
            patchSt_patchedLike st hst
          have hfresh0 : ∀ k ∈ pfieldsKeys popts.preservingProtoFieldName fields,
              k ∉ ([] : List String) := fun k _ hc => (List.not_mem_nil k) hc
          have hdepf : (depth + 1) + fieldsDepth customNames fields
              ≤ ropts.maxRecursionDepth := by omega
          rw [htrans (patchSt st) (depth + 1) [] .pnil extra hpatched hdepf hfresh0 rfl]
          have hfreshextra : ∀ k ∈ JObj.keys extra,
              k ∉ List.reverseAux (pfieldsKeys popts.preservingProtoFieldName fields) [] := by
            intro k hk
            have hnotjs := hdkeys k hk
            rw [hkeys1] at hnotjs
            simp only [List.reverseAux_eq, List.append_nil, List.mem_reverse]
            exact hnotjs
          rw [hdparse (patchSt st) (depth + 1)
            (List.reverseAux (pfieldsKeys popts.preservingProtoFieldName fields) [])
            (pfieldsAppend .pnil fields) hpatched hfreshextra]
          simp [Except.map, pfieldsAppend, hfull]
      · -- no defaults: the printed object is exactly the populated fields
        refine ⟨.jobj js1, ?_, rfl, ?_⟩
        · simp [messageToJsonObject, hsernone, hwkt, hprint1, hinc]
        · intro st depth hst hdep
          rw [hmd] at hdep
          have hdep1 : depth + 1 ≤ ropts.maxRecursionDepth := by omega
          rw [show PMessage.typeName (.mk tn fields) = tn from rfl]
          rw [convertMessage_nocustom_run desers pool ropts st depth tn _ d hdesernone
            hwkt hpool hdep1]
          have hpatched : patchedLikeBase (patchSt st).convertScalarFieldValue :=
            patchSt_patchedLike st hst
          have hfresh0 : ∀ k ∈ pfieldsKeys popts.preservingProtoFieldName fields,
              k ∉ ([] : List String) := fun k _ hc => (List.not_mem_nil k) hc
          have hdepf : (depth + 1) + fieldsDepth customNames fields
              ≤ ropts.maxRecursionDepth := by omega
          rw [show js1 = JObj.append js1 JObj.onil from (jobj_append_onil js1).symm,
            htrans (patchSt st) (depth + 1) [] .pnil .onil hpatched hdepf hfresh0 rfl]
          simp [convertEntries, Except.map, pfieldsAppend, hfull]

/-- A well-formed populated field list prints to an object whose keys are
exactly the rendered field keys, and whose entries, parsed in order at any
patched module state, extend the message under construction by exactly
those fields. -/
theorem roundtrip_fields (sers : List (String × SerFn)) (desers : List (String × DeserFn))
    (pool : List Descriptor) (customNames : List String) (P : String → PMessage → Bool)
    (popts : PrintOptions) (ropts : ParseOptions)
    (hcn : ∀ tn, tn ∈ customNames ↔ (dictGet sers tn).isSome = true)
    (haligned : customsAligned sers desers P)
    (hwfpool : wfPool pool = true)
    (d : Descriptor) (hok : descriptorOk d = true) :
    ∀ (fields : PFields) (minNum : Nat),
      wfFields pool customNames P d minNum fields = true →
    ∃ js1, printPopulatedFields sers pool popts fields = .ok js1 ∧
      JObj.keys js1 = pfieldsKeys popts.preservingProtoFieldName fields ∧
      ∀ (st : JsonFormatModule) (depth : Nat) (names : List String) (acc : PFields)
        (o2 : JObj),
        patchedLikeBase st.convertScalarFieldValue →
        depth + fieldsDepth customNames fields ≤ ropts.maxRecursionDepth →
        (∀ k ∈ pfieldsKeys popts.preservingProtoFieldName fields, k ∉ names) →
        pfieldsNumbersLe acc minNum = true →
        convertEntries desers pool ropts st depth d names acc (JObj.append js1 o2)
          = convertEntries desers pool ropts st depth d
              (List.reverseAux (pfieldsKeys popts.preservingProtoFieldName fields) names)
              (pfieldsAppend acc fields) o2
  | .pnil, minNum, _ =>
    ⟨.onil, rfl, rfl, fun st depth names acc o2 _ _ _ _ => by
      rw [show pfieldsAppend acc .pnil = acc from pfieldsAppend_pnil_right acc]
      rfl⟩
  | .pcons fd payload rest, minNum, hwf => by
    simp only [wfFields, Bool.and_eq_true, decide_eq_true_eq] at hwf
    obtain ⟨⟨⟨hfdmem, hlt⟩, hwfp⟩, hwfrest⟩ := hwf
    obtain ⟨js1, hprint1, hkeys1, htrans1⟩ :=
      roundtrip_fields sers desers pool customNames P popts ropts hcn haligned hwfpool
        d hok rest fd.number hwfrest
    have hfind : findField d (renderedKey popts.preservingProtoFieldName fd) = some fd :=
      findField_rendered d hok fd hfdmem _
    have hnotrest : renderedKey popts.preservingProtoFieldName fd
        ∉ pfieldsKeys popts.preservingProtoFieldName rest :=
      wfFields_key_not_mem pool customNames P d hok fd hfdmem _ rest fd.number
        (Nat.le_refl _) hwfrest
    have hkindok : fieldKindOk fd.kind = true := by
      have h := hok
      simp only [descriptorOk, Bool.and_eq_true, List.all_eq_true] at h
      exact h.2 fd hfdmem
    cases payload with
    | single v =>
      simp only [wfPayload, Bool.and_eq_true] at hwfp
      obtain ⟨⟨hrep0, hwfv⟩, hdef3⟩ := hwfp
      have hrep : fd.isRepeated = false := by simpa using hrep0
      by_cases hcpp : fd.kind.cppType = CppType.cppMessage
      · -- singular message field
        obtain ⟨subtn, hk⟩ : ∃ subtn, fd.kind = .messageK subtn := by
          cases hk2 : fd.kind <;> simp [hk2, FieldKind.cppType] at hcpp ⊢
        cases v with
        | pint i => rw [hk] at hwfv; simp [wfValue] at hwfv
        | pstr s => rw [hk] at hwfv; simp [wfValue] at hwfv
        | pbytes b => rw [hk] at hwfv; simp [wfValue] at hwfv
        | pbool b => rw [hk] at hwfv; simp [wfValue] at hwfv
        | penum n => rw [hk] at hwfv; simp [wfValue] at hwfv
        | pmsg sub =>
          rw [hk] at hwfv
          simp only [wfValue, Bool.and_eq_true, beq_iff_eq] at hwfv
          obtain ⟨hsubtn, hwfsub⟩ := hwfv
          obtain ⟨jsv, hjsv, hnnv, hparsev⟩ :=
            roundtrip_msg sers desers pool customNames P popts ropts hcn haligned hwfpool
              sub hwfsub
          refine ⟨.ocons (renderedKey popts.preservingProtoFieldName fd) jsv js1,
            by simp [printPopulatedFields, fieldToJsonObject, hcpp, hjsv, hprint1,
              renderedKey], by simp [JObj.keys, pfieldsKeys, hkeys1], ?_⟩
          intro st depth names acc o2 hst hdep hfreshkeys hacc
          have hkeynot : renderedKey popts.preservingProtoFieldName fd ∉ names :=
            hfreshkeys _ (by simp [pfieldsKeys])
          have hdepsub : depth + msgDepth customNames sub ≤ ropts.maxRecursionDepth := by
            simp only [fieldsDepth, payloadDepth, valueDepth] at hdep
            omega
          have hconv : convertMessage desers pool ropts st depth subtn jsv
              = (st, .ok sub) := by
            have h := hparsev st depth (nonBytes_of_patchedLike _ hst) hdepsub
            rwa [hsubtn] at h
          rw [show JObj.append (JObj.ocons (renderedKey popts.preservingProtoFieldName fd)
              jsv js1) o2
            = JObj.ocons (renderedKey popts.preservingProtoFieldName fd) jsv
                (JObj.append js1 o2) from rfl]
          rw [convertEntries_single_message desers pool ropts st st depth d names acc
            _ jsv (JObj.append js1 o2) fd subtn sub hfind hkeynot hnnv hrep hcpp
            (by rw [hk]; rfl) hconv]
          rw [setFieldSorted_append acc fd (.single (.pmsg sub)) minNum hacc hlt]
          have hdeprest : depth + fieldsDepth customNames rest
              ≤ ropts.maxRecursionDepth := by
            simp only [fieldsDepth] at hdep
            omega
          have hfreshrest : ∀ k ∈ pfieldsKeys popts.preservingProtoFieldName rest,
              k ∉ renderedKey popts.preservingProtoFieldName fd :: names := by
            intro k hkmem
            simp only [List.mem_cons]
            push_neg
            exact ⟨fun hc => absurd (hc ▸ hkmem) hnotrest,
              hfreshkeys k (by simp [pfieldsKeys, hkmem])⟩
          have haccA : pfieldsNumbersLe
              (pfieldsAppend acc (.pcons fd (.single (.pmsg sub)) .pnil)) fd.number
              = true := by
            refine pfieldsNumbersLe_append acc _ fd.number
              (pfieldsNumbersLe_mono acc minNum fd.number (Nat.le_of_lt hlt) hacc) ?_
            simp [pfieldsNumbersLe]
          rw [htrans1 st depth (renderedKey popts.preservingProtoFieldName fd :: names)
            _ o2 hst hdeprest hfreshrest haccA]
          rw [pfieldsAppend_cons_right acc fd (.single (.pmsg sub)) rest]
          rfl
      · -- singular scalar field
        obtain ⟨hfits, hnotmsg⟩ :=
          wfValue_nonmsg pool customNames P fd.kind v hcpp hwfv
        have hnotdef : isDefaultScalar v = false := by
          rcases (Bool.or_eq_true _ _).mp hdef3 with hc | hc
          · exact absurd (of_decide_eq_true hc) hcpp
          · simpa using hc
        obtain ⟨jv, hjv, hnnv, hback⟩ := scalar_roundtrip popts fd v hkindok hcpp hfits
        refine ⟨.ocons (renderedKey popts.preservingProtoFieldName fd) jv js1,
          by simp [printPopulatedFields,
            fieldToJsonObject_scalar sers pool popts fd v hcpp hnotmsg, hjv, hprint1,
            renderedKey], by simp [JObj.keys, pfieldsKeys, hkeys1], ?_⟩
        intro st depth names acc o2 hst hdep hfreshkeys hacc
        have hkeynot : renderedKey popts.preservingProtoFieldName fd ∉ names :=
          hfreshkeys _ (by simp [pfieldsKeys])
        have hconv : st.convertScalarFieldValue jv fd = .ok v := by
          rw [hst jv fd]
          exact hback
        rw [show JObj.append (JObj.ocons (renderedKey popts.preservingProtoFieldName fd)
            jv js1) o2
          = JObj.ocons (renderedKey popts.preservingProtoFieldName fd) jv
              (JObj.append js1 o2) from rfl]
        rw [convertEntries_scalar desers pool ropts st depth d names acc _ jv
          (JObj.append js1 o2) fd v hfind hkeynot hnnv hrep hcpp hconv hfits]
        rw [show storeScalar acc fd v = setFieldSorted acc fd (.single v) from by
          simp [storeScalar, hnotdef]]
        rw [setFieldSorted_append acc fd (.single v) minNum hacc hlt]
        have hdeprest : depth + fieldsDepth customNames rest
            ≤ ropts.maxRecursionDepth := by
          simp only [fieldsDepth] at hdep
          omega
        have hfreshrest : ∀ k ∈ pfieldsKeys popts.preservingProtoFieldName rest,
            k ∉ renderedKey popts.preservingProtoFieldName fd :: names := by
          intro k hkmem
          simp only [List.mem_cons]
          push_neg
          exact ⟨fun hc => absurd (hc ▸ hkmem) hnotrest,
            hfreshkeys k (by simp [pfieldsKeys, hkmem])⟩
        have haccA : pfieldsNumbersLe
            (pfieldsAppend acc (.pcons fd (.single v) .pnil)) fd.number = true := by
          refine pfieldsNumbersLe_append acc _ fd.number
            (pfieldsNumbersLe_mono acc minNum fd.number (Nat.le_of_lt hlt) hacc) ?_
          simp [pfieldsNumbersLe]
        rw [htrans1 st depth (renderedKey popts.preservingProtoFieldName fd :: names)
          _ o2 hst hdeprest hfreshrest haccA]
        rw [pfieldsAppend_cons_right acc fd (.single v) rest]
        rfl
    | repeated vs =>
      simp only [wfPayload, Bool.and_eq_true] at hwfp
      obtain ⟨hrep, hlist0⟩ := hwfp
      cases vs with
      | lnil => simp at hlist0
      | lcons v0 vrest =>
        have hwfl : wfList pool customNames P fd.kind (.lcons v0 vrest) = true := hlist0
        by_cases hcpp : fd.kind.cppType = CppType.cppMessage
        · -- repeated message field
          obtain ⟨subtn, hk⟩ : ∃ subtn, fd.kind = .messageK subtn := by
            cases hk2 : fd.kind <;> simp [hk2, FieldKind.cppType] at hcpp ⊢
          obtain ⟨items, hitems, hparselist⟩ :=
            roundtrip_msglist sers desers pool customNames P popts ropts hcn haligned
              hwfpool fd subtn hk (.lcons v0 vrest) hwfl
          refine ⟨.ocons (renderedKey popts.preservingProtoFieldName fd) (.jarr items) js1,
            by simp [printPopulatedFields, hitems, hprint1, renderedKey],
            by simp [JObj.keys, pfieldsKeys, hkeys1], ?_⟩
          intro st depth names acc o2 hst hdep hfreshkeys hacc
          have hkeynot : renderedKey popts.preservingProtoFieldName fd ∉ names :=
            hfreshkeys _ (by simp [pfieldsKeys])
          have hdeplist : depth + listDepth customNames (.lcons v0 vrest)
              ≤ ropts.maxRecursionDepth := by
            simp only [fieldsDepth, payloadDepth] at hdep
            omega
          have hconv : convertRepeatedMessageField desers pool ropts st depth subtn
              (.jarr items) = (st, .ok (.lcons v0 vrest)) := by
            rw [show convertRepeatedMessageField desers pool ropts st depth subtn
                (.jarr items)
              = convertRepeatedMessages desers pool ropts st depth subtn items from rfl]
            exact hparselist st depth (nonBytes_of_patchedLike _ hst) hdeplist
          rw [show JObj.append (JObj.ocons (renderedKey popts.preservingProtoFieldName fd)
              (.jarr items) js1) o2
            = JObj.ocons (renderedKey popts.preservingProtoFieldName fd) (.jarr items)
                (JObj.append js1 o2) from rfl]
          rw [convertEntries_repeated_message desers pool ropts st st depth d names acc
            _ (.jarr items) (JObj.append js1 o2) fd subtn (.lcons v0 vrest) hfind hkeynot
            rfl hrep hcpp (by rw [hk]; rfl) hconv]
          rw [show storeRepeated acc fd (.lcons v0 vrest)
            = setFieldSorted acc fd (.repeated (.lcons v0 vrest)) from rfl]
          rw [setFieldSorted_append acc fd (.repeated (.lcons v0 vrest)) minNum hacc hlt]
          have hdeprest : depth + fieldsDepth customNames rest
              ≤ ropts.maxRecursionDepth := by
            simp only [fieldsDepth] at hdep
            omega
          have hfreshrest : ∀ k ∈ pfieldsKeys popts.preservingProtoFieldName rest,
              k ∉ renderedKey popts.preservingProtoFieldName fd :: names := by
            intro k hkmem
            simp only [List.mem_cons]
            push_neg
            exact ⟨fun hc => absurd (hc ▸ hkmem) hnotrest,
              hfreshkeys k (by simp [pfieldsKeys, hkmem])⟩
          have haccA : pfieldsNumbersLe
              (pfieldsAppend acc (.pcons fd (.repeated (.lcons v0 vrest)) .pnil)) fd.number
              = true := by
            refine pfieldsNumbersLe_append acc _ fd.number
              (pfieldsNumbersLe_mono acc minNum fd.number (Nat.le_of_lt hlt) hacc) ?_
            simp [pfieldsNumbersLe]
          rw [htrans1 st depth (renderedKey popts.preservingProtoFieldName fd :: names)
            _ o2 hst hdeprest hfreshrest haccA]
          rw [pfieldsAppend_cons_right acc fd (.repeated (.lcons v0 vrest)) rest]
          rfl
        · -- repeated scalar field
          obtain ⟨items, hitems, hparsesc⟩ :=
            repeated_scalars_roundtrip sers pool customNames P popts fd hkindok hcpp
              (.lcons v0 vrest) hwfl
          refine ⟨.ocons (renderedKey popts.preservingProtoFieldName fd) (.jarr items) js1,
            by simp [printPopulatedFields, hitems, hprint1, renderedKey],
            by simp [JObj.keys, pfieldsKeys, hkeys1], ?_⟩
          intro st depth names acc o2 hst hdep hfreshkeys hacc
          have hkeynot : renderedKey popts.preservingProtoFieldName fd ∉ names :=
            hfreshkeys _ (by simp [pfieldsKeys])
          have hconv : convertRepeatedScalarsValue st.convertScalarFieldValue fd
              (.jarr items) = .ok (.lcons v0 vrest) := by
            rw [show convertRepeatedScalarsValue st.convertScalarFieldValue fd (.jarr items)
              = convertRepeatedScalars st.convertScalarFieldValue fd items from rfl]
            exact hparsesc st.convertScalarFieldValue hst
          rw [show JObj.append (JObj.ocons (renderedKey popts.preservingProtoFieldName fd)
              (.jarr items) js1) o2
            = JObj.ocons (renderedKey popts.preservingProtoFieldName fd) (.jarr items)
                (JObj.append js1 o2) from rfl]
          rw [convertEntries_repeated_scalar desers pool ropts st depth d names acc
            _ (.jarr items) (JObj.append js1 o2) fd (.lcons v0 vrest) hfind hkeynot
            rfl hrep hcpp hconv]
          rw [show storeRepeated acc fd (.lcons v0 vrest)
            = setFieldSorted acc fd (.repeated (.lcons v0 vrest)) from rfl]
          rw [setFieldSorted_append acc fd (.repeated (.lcons v0 vrest)) minNum hacc hlt]
          have hdeprest : depth + fieldsDepth customNames rest
              ≤ ropts.maxRecursionDepth := by
            simp only [fieldsDepth] at hdep
            omega
          have hfreshrest : ∀ k ∈ pfieldsKeys popts.preservingProtoFieldName rest,
              k ∉ renderedKey popts.preservingProtoFieldName fd :: names := by
            intro k hkmem
            simp only [List.mem_cons]
            push_neg
            exact ⟨fun hc => absurd (hc ▸ hkmem) hnotrest,
              hfreshkeys k (by simp [pfieldsKeys, hkmem])⟩
          have haccA : pfieldsNumbersLe
              (pfieldsAppend acc (.pcons fd (.repeated (.lcons v0 vrest)) .pnil)) fd.number
              = true := by
            refine pfieldsNumbersLe_append acc _ fd.number
              (pfieldsNumbersLe_mono acc minNum fd.number (Nat.le_of_lt hlt) hacc) ?_
            simp [pfieldsNumbersLe]
          rw [htrans1 st depth (renderedKey popts.preservingProtoFieldName fd :: names)
            _ o2 hst hdeprest hfreshrest haccA]
          rw [pfieldsAppend_cons_right acc fd (.repeated (.lcons v0 vrest)) rest]
          rfl

/-- The elements of a well-formed repeated message field print to an array
of non-null objects that parses back, element by element, to the same
list. -/
theorem roundtrip_msglist (sers : List (String × SerFn)) (desers : List (String × DeserFn))
    (pool : List Descriptor) (customNames : List String) (P : String → PMessage → Bool)
    (popts : PrintOptions) (ropts : ParseOptions)
    (hcn : ∀ tn, tn ∈ customNames ↔ (dictGet sers tn).isSome = true)
    (haligned : customsAligned sers desers P)
    (hwfpool : wfPool pool = true)
    (fd : FieldDescriptor) (subtn : String) (hfk : fd.kind = .messageK subtn) :
    ∀ (vs : PList), wfList pool customNames P fd.kind vs = true →
    ∃ items, printRepeatedField sers pool popts fd vs = .ok items ∧
      ∀ (st : JsonFormatModule) (depth : Nat),
        nonBytesLikeBase st.convertScalarFieldValue →
        depth + listDepth customNames vs ≤ ropts.maxRecursionDepth →
        convertRepeatedMessages desers pool ropts st depth subtn items = (st, .ok vs)
  | .lnil, _ => ⟨.anil, rfl, fun st depth _ _ => rfl⟩
  | .lcons v rest, hwf => by
    simp only [wfList, Bool.and_eq_true] at hwf
    obtain ⟨hwfv, hwfrest⟩ := hwf
    cases v with
    | pint i => rw [hfk] at hwfv; simp [wfValue] at hwfv
    | pstr s => rw [hfk] at hwfv; simp [wfValue] at hwfv
    | pbytes b => rw [hfk] at hwfv; simp [wfValue] at hwfv
    | pbool b => rw [hfk] at hwfv; simp [wfValue] at hwfv
    | penum n => rw [hfk] at hwfv; simp [wfValue] at hwfv
    | pmsg sub =>
      rw [hfk] at hwfv
      simp only [wfValue, Bool.and_eq_true, beq_iff_eq] at hwfv
      obtain ⟨hsubtn, hwfsub⟩ := hwfv
      obtain ⟨jsv, hjsv, hnnv, hparsev⟩ :=
        roundtrip_msg sers desers pool customNames P popts ropts hcn haligned hwfpool
          sub hwfsub
      obtain ⟨items, hitems, hparserest⟩ :=
        roundtrip_msglist sers desers pool customNames P popts ropts hcn haligned hwfpool
          fd subtn hfk rest hwfrest
      have hcpp : fd.kind.cppType = CppType.cppMessage := by rw [hfk]; rfl
      refine ⟨.acons jsv items, ?_, ?_⟩
      · simp [printRepeatedField, fieldToJsonObject, hcpp, hjsv, hitems]
      · intro st depth hst hdep
        have h1 : convertMessage desers pool ropts st depth subtn jsv = (st, .ok sub) := by
          have h := hparsev st depth hst
            (by simp only [listDepth, valueDepth] at hdep; omega)
          rwa [hsubtn] at h
        exact convertRepeatedMessages_cons desers pool ropts st st st depth subtn jsv
          items sub rest hnnv h1
          (hparserest st depth hst (by simp only [listDepth] at hdep; omega))
end

/-! ## Claim C6: the round trip -/

theorem timestampSeconds_mk (s n : Int) : timestampSeconds (mkTimestampMessage s n) = s := by
  by_cases hs : s = 0 <;> by_cases hn : n = 0 <;>
    simp [mkTimestampMessage, mkTimestampFields, timestampSeconds, PMessage.fields,
      PFields.getByName, tsSecondsField, tsNanosField, secondsFieldName, nanosFieldName,
      hs, hn]

theorem timestampNanos_mk (s n : Int) : timestampNanos (mkTimestampMessage s n) = n := by
  by_cases hs : s = 0 <;> by_cases hn : n = 0 <;>
    simp [mkTimestampMessage, mkTimestampFields, timestampNanos, PMessage.fields,
      PFields.getByName, tsSecondsField, tsNanosField, secondsFieldName, nanosFieldName,
      hs, hn]

theorem to_datetime_mk (s n : Int) :
    to_datetime (mkTimestampMessage s n) = .jtemporal s n := by
  simp [to_datetime, timestampSeconds_mk, timestampNanos_mk]

/-- The custom registry domain of the freshly constructed converter is
exactly the timestamp type. -/
theorem mkConverter_custom_domain (tn : String) :
    tn ∈ [timestampFullName]
      ↔ (dictGet mkMessageConverter.customSerializers tn).isSome = true := by
  have hser : mkMessageConverter.customSerializers = [(timestampFullName, to_datetime)] :=
    rfl
  rw [hser]
  by_cases h : timestampFullName = tn
  · subst h
    simp [dictGet]
  · simp only [dictGet, if_neg h, List.mem_singleton]
    constructor
    · intro hc
      exact absurd hc.symm h
    · intro hc
      simp at hc

/-- The default timestamp serializer / deserializer pair is aligned and
lossless on canonical timestamps. -/
theorem timestamp_customs_aligned :
    customsAligned mkMessageConverter.customSerializers
      mkMessageConverter.customDeserializers timestampCanonical := by
  have hser : mkMessageConverter.customSerializers = [(timestampFullName, to_datetime)] :=
    rfl
  have hdeser : mkMessageConverter.customDeserializers
      = [(timestampFullName, from_datetime)] := rfl
  constructor
  · intro tn
    rw [hser, hdeser]
    by_cases h : timestampFullName = tn <;> simp [dictGet, h]
  · intro tn ser m hs hP htn
    rw [hser] at hs
    by_cases h : timestampFullName = tn
    · simp only [dictGet, if_pos h] at hs
      injection hs with hs
      subst hs
      simp only [timestampCanonical, Bool.and_eq_true, beq_iff_eq] at hP
      obtain ⟨htn2, hm⟩ := hP
      refine ⟨rfl, ?_⟩
      intro deser hd
      rw [hdeser] at hd
      simp only [dictGet, if_pos h] at hd
      injection hd with hd
      subst hd
      rw [show to_datetime m = .jtemporal (timestampSeconds m) (timestampNanos m) from rfl]
      rw [show from_datetime (.jtemporal (timestampSeconds m) (timestampNanos m))
        = .ok (mkTimestampMessage (timestampSeconds m) (timestampNanos m)) from rfl]
      rw [← hm]
    · simp [dictGet, h] at hs

/-- C6: amended round trip.  `parse_dict` undoes `message_to_dict` for every
well-formed message of the modelled fragment — over any print options, any
parse options, and any converter whose custom serializer / deserializer
registrations are aligned and lossless — provided the message's nesting
depth fits within the parser's `max_recursion_depth` (the counterexample
shows a well-formed depth-101 message whose encoding is rejected by the
default limit, so the bound cannot be dropped).  In particular, with the
default timestamp override active, a canonical timestamp round-trips
through its native temporal representation back to an equal timestamp. -/
theorem round_trip_depth_bounded :
    (∀ (mc : MessageConverter) (pool : List Descriptor) (customNames : List String)
        (P : String → PMessage → Bool) (popts : PrintOptions) (ropts : ParseOptions)
        (m : PMessage),
        (∀ tn, tn ∈ customNames ↔ (dictGet mc.customSerializers tn).isSome = true) →
        customsAligned mc.customSerializers mc.customDeserializers P →
        wfPool pool = true →
        wfMsg pool customNames P m = true →
        msgDepth customNames m ≤ ropts.maxRecursionDepth →
        ∃ js, message_to_dict mc pool popts m = .ok js ∧
          parse_dict mc pool ropts js (PMessage.typeName m) = .ok m) ∧
    (∀ (pool : List Descriptor) (popts : PrintOptions) (ropts : ParseOptions) (s n : Int),
        message_to_dict mkMessageConverter pool popts (mkTimestampMessage s n)
          = .ok (.jtemporal s n) ∧
        parse_dict mkMessageConverter pool ropts (.jtemporal s n) timestampFullName
          = .ok (mkTimestampMessage s n)) := by
  constructor
  · intro mc pool customNames P popts ropts m hcn haligned hwfpool hwf hdepth
    obtain ⟨js, hprint, hnn, hparse⟩ :=
      roundtrip_msg mc.customSerializers mc.customDeserializers pool customNames P popts
        ropts hcn haligned hwfpool m hwf
    refine ⟨js, hprint, ?_⟩
    have h := hparse jsonFormatModuleStart 0 base_nonBytesLikeBase (by omega)
    rw [show parse_dict mc pool ropts js (PMessage.typeName m)
      = (convertMessage mc.customDeserializers pool ropts jsonFormatModuleStart 0
          (PMessage.typeName m) js).2 from rfl, h]
  · intro pool popts ropts s n
    have hsg : dictGet mkMessageConverter.customSerializers timestampFullName
        = some to_datetime := rfl
    have hdg : dictGet mkMessageConverter.customDeserializers timestampFullName
        = some from_datetime := rfl
    constructor
    · rw [show mkTimestampMessage s n
        = .mk timestampFullName (mkTimestampFields s n) from rfl]
      rw [show message_to_dict mkMessageConverter pool popts
          (.mk timestampFullName (mkTimestampFields s n))
        = messageToJsonObject mkMessageConverter.customSerializers pool popts
            (.mk timestampFullName (mkTimestampFields s n)) from rfl]
      simp only [messageToJsonObject, hsg]
      rw [show PMessage.mk timestampFullName (mkTimestampFields s n)
        = mkTimestampMessage s n from rfl, to_datetime_mk]
    · rw [show parse_dict mkMessageConverter pool ropts (.jtemporal s n) timestampFullName
        = (convertMessage mkMessageConverter.customDeserializers pool ropts
            jsonFormatModuleStart 0 timestampFullName (.jtemporal s n)).2 from rfl]
      simp [convertMessage, hdg, from_datetime]

/-- C6 counterexample: the chain message of nesting depth 101 is well
formed, uses no custom (hence no lossy) serializer, and its encode succeeds,
yet decoding the encoding with default options fails with the recursion
limit error instead of restoring the message. -/
theorem round_trip_recursion_limit_counterexample :
    wfMsg valuePool [timestampFullName] timestampCanonical (chainMsg 100) = true ∧
    msgDepth [timestampFullName] (chainMsg 100) = 101 ∧
    (match message_to_dict mkMessageConverter valuePool {} (chainMsg 100) with
     | .ok js => parse_dict mkMessageConverter valuePool {} js chainName
     | .error _ => .error .unmodeled)
      = .error .messageTooDeep := by
  refine ⟨by decide, by decide, by decide⟩

theorem round_trip_depth_bounded_witness :
    ∃ js, message_to_dict mkMessageConverter valuePool {} (int64Msg (2 ^ 40)) = .ok js ∧
      parse_dict mkMessageConverter valuePool {} js (PMessage.typeName (int64Msg (2 ^ 40)))
        = .ok (int64Msg (2 ^ 40)) :=
  round_trip_depth_bounded.1 mkMessageConverter valuePool [timestampFullName]
    timestampCanonical {} {} (int64Msg (2 ^ 40)) mkConverter_custom_domain
    timestamp_customs_aligned (by decide) (by decide) (by decide)

end Pbspark